import Mathlib

/-!
# SQL Playground (`site/app.js`): a shallow embedding and its verified properties

JavaScript strings are sequences of UTF-16 code units.  A string is modelled as the list of
its code units (`JSString := List Nat`, every element below `65536`, see `IsJSString`).

The built-in functions that `app.js` calls (`String.prototype.replace` with a global
single-character regular expression, `String.prototype.trim`, `encodeURIComponent`,
`decodeURIComponent`, `escape`, `unescape`, `btoa`, `atob`) are modelled after their
definitions in ECMA-262 and in the HTML standard; each one is an executable function.
-/

namespace SQLPlayground

/-! ## Strings -/

/-- A JavaScript string: the list of its UTF-16 code units. -/
abbrev JSString := List Nat

/-- Every element is a 16-bit code unit. -/
def IsJSString (s : JSString) : Prop := ∀ c ∈ s, c < 65536

instance (s : JSString) : Decidable (IsJSString s) := by
  unfold IsJSString; infer_instance

/-- The code units of an ASCII string literal of the source. -/
def lit (s : String) : JSString := s.toList.map Char.toNat

/-- The exceptions the modelled built-ins throw. -/
inductive JSError
  | URIError
  | InvalidCharacterError
  deriving DecidableEq

instance instDecidableEqExcept {ε α : Type} [DecidableEq ε] [DecidableEq α] :
    DecidableEq (Except ε α)
  | .ok a, .ok b =>
    if h : a = b then isTrue (by rw [h]) else isFalse (fun h2 => h (by cases h2; rfl))
  | .error a, .error b =>
    if h : a = b then isTrue (by rw [h]) else isFalse (fun h2 => h (by cases h2; rfl))
  | .ok _, .error _ => isFalse (fun h => by cases h)
  | .error _, .ok _ => isFalse (fun h => by cases h)

/-- `s.replace(/[...]/g, repl)` for a regular expression that matches exactly one code unit,
the code units satisfying `p`: every match is replaced by `repl`, the rest is kept. -/
def replaceAll (p : Nat → Bool) (repl : JSString) (s : JSString) : JSString :=
  s.flatMap fun c => if p c then repl else [c]

/-! ## Values and `String(value)` -/

/-- The values `escapeHtml` is applied to: the primitive values, and the `Uint8Array` the
engine returns for a binary cell.  The number type `N` and its conversion to a string
(`Number::toString`, floating point) are parameters. -/
inductive JSValue (N : Type)
  | null
  | undefined
  | bool (b : Bool)
  | number (n : N)
  | string (s : JSString)
  | bytes (b : List Nat)
  deriving DecidableEq

/-- Decimal digits of a natural number, as code units. -/
def natToString (n : Nat) : JSString := (Nat.toDigits 10 n).map Char.toNat

/-- The elements of a typed array joined by commas (`%TypedArray%.prototype.toString`). -/
def joinComma : List Nat → JSString
  | [] => []
  | [b] => natToString b
  | b :: rest => natToString b ++ 44 :: joinComma rest

/-- `String(value)`. -/
def toJSString {N : Type} (numberToString : N → JSString) : JSValue N → JSString
  | .null => [110, 117, 108, 108]
  | .undefined => [117, 110, 100, 101, 102, 105, 110, 101, 100]
  | .bool true => [116, 114, 117, 101]
  | .bool false => [102, 97, 108, 115, 101]
  | .number n => numberToString n
  | .string s => s
  | .bytes b => joinComma b

/-! ## `escapeHtml` (app.js 19-26) -/

/-- The text `&amp;`. -/
def entAmp : JSString := [38, 97, 109, 112, 59]
/-- The text `&lt;`. -/
def entLt : JSString := [38, 108, 116, 59]
/-- The text `&gt;`. -/
def entGt : JSString := [38, 103, 116, 59]
/-- The text `&quot;`. -/
def entQuot : JSString := [38, 113, 117, 111, 116, 59]
/-- The text `&#039;`. -/
def entApos : JSString := [38, 35, 48, 51, 57, 59]

/-- The five entities `escapeHtml` produces. -/
def entities : List JSString := [entAmp, entLt, entGt, entQuot, entApos]

/-- The chain of five replacements applied to `String(value)`. -/
def escapeHtmlText (s : JSString) : JSString :=
  replaceAll (· == 39) entApos
    (replaceAll (· == 34) entQuot
      (replaceAll (· == 62) entGt
        (replaceAll (· == 60) entLt
          (replaceAll (· == 38) entAmp s))))

/-- `escapeHtml(value)`. -/
def escapeHtml {N : Type} (numberToString : N → JSString) (value : JSValue N) : JSString :=
  escapeHtmlText (toJSString numberToString value)

/-! ## `escapeIdentifier` (app.js 134-136) -/

/-- The character class `[a-zA-Z0-9_]`. -/
def isIdentChar (c : Nat) : Bool :=
  (97 ≤ c && c ≤ 122) || (65 ≤ c && c ≤ 90) || (48 ≤ c && c ≤ 57) || c == 95

/-- `name.replace(/[^a-zA-Z0-9_]/g, '')`. -/
def escapeIdentifier (name : JSString) : JSString :=
  replaceAll (fun c => !isIdentChar c) [] name

/-- What a single code unit becomes under `escapeHtml`. -/
def escapeUnit (c : Nat) : JSString :=
  if c = 38 then entAmp else if c = 60 then entLt else if c = 62 then entGt
  else if c = 34 then entQuot else if c = 39 then entApos else [c]

/-- The markup-significant characters other than `&`. -/
def isMarkupChar (c : Nat) : Bool := c == 60 || c == 62 || c == 34 || c == 39

/-! ## Hexadecimal digits -/

/-- The upper-case hexadecimal digit of a value below 16. -/
def hexDigit (n : Nat) : Nat := if n < 10 then 48 + n else 55 + n

/-- The value of a hexadecimal digit, upper or lower case. -/
def hexVal (c : Nat) : Option Nat :=
  if 48 ≤ c ∧ c ≤ 57 then some (c - 48)
  else if 65 ≤ c ∧ c ≤ 70 then some (c - 55)
  else if 97 ≤ c ∧ c ≤ 102 then some (c - 87)
  else none

/-- The text `%XX` of an octet. -/
def pctOctet (b : Nat) : JSString := [37, hexDigit (b / 16), hexDigit (b % 16)]

/-- The octet written by the first two code units of `s` as hexadecimal digits
(`ParseHexOctet`), when there are two and both are digits. -/
def parseHexOctet : JSString → Option Nat
  | h :: l :: _ =>
    match hexVal h, hexVal l with
    | some a, some b => some (16 * a + b)
    | _, _ => none
  | _ => none

/-! ## UTF-16 and UTF-8 -/

def isLeadSurrogate (c : Nat) : Bool := 0xD800 ≤ c && c ≤ 0xDBFF
def isTrailSurrogate (c : Nat) : Bool := 0xDC00 ≤ c && c ≤ 0xDFFF

/-- `UTF16SurrogatePairToCodePoint`. -/
def surrogatePairToCodePoint (lead trail : Nat) : Nat :=
  (lead - 0xD800) * 0x400 + (trail - 0xDC00) + 0x10000

/-- `UTF16EncodeCodePoint`. -/
def utf16EncodeCodePoint (cp : Nat) : JSString :=
  if cp ≤ 0xFFFF then [cp]
  else [(cp - 0x10000) / 0x400 + 0xD800, (cp - 0x10000) % 0x400 + 0xDC00]

/-- The UTF-8 encoding of a code point. -/
def utf8Encode (cp : Nat) : List Nat :=
  if cp < 0x80 then [cp]
  else if cp < 0x800 then [0xC0 + cp / 64, 0x80 + cp % 64]
  else if cp < 0x10000 then [0xE0 + cp / 4096, 0x80 + cp / 64 % 64, 0x80 + cp % 64]
  else [0xF0 + cp / 262144, 0x80 + cp / 4096 % 64, 0x80 + cp / 64 % 64, 0x80 + cp % 64]

/-! ## `encodeURIComponent` -/

/-- The set `uriUnreserved`: letters, digits and `-_.!~*'()`. -/
def isUriUnreserved (c : Nat) : Bool :=
  (97 ≤ c && c ≤ 122) || (65 ≤ c && c ≤ 90) || (48 ≤ c && c ≤ 57) ||
  c == 45 || c == 95 || c == 46 || c == 33 || c == 126 || c == 42 || c == 39 ||
  c == 40 || c == 41

/-- The loop of `Encode(string, unreservedSet)`; `skip` code units are passed over first
(the second half of a surrogate pair, consumed together with the first). -/
def encodeLoop : Nat → JSString → Except JSError JSString
  | _, [] => .ok []
  | skip + 1, _ :: rest => encodeLoop skip rest
  | 0, c :: rest =>
    if isUriUnreserved c then (encodeLoop 0 rest).map (c :: ·)
    else if isTrailSurrogate c then .error .URIError
    else if isLeadSurrogate c then
      match rest with
      | [] => .error .URIError
      | d :: _ =>
        if isTrailSurrogate d then
          (encodeLoop 1 rest).map
            (((utf8Encode (surrogatePairToCodePoint c d)).flatMap pctOctet) ++ ·)
        else .error .URIError
    else (encodeLoop 0 rest).map (((utf8Encode c).flatMap pctOctet) ++ ·)

def encodeURIComponent (s : JSString) : Except JSError JSString := encodeLoop 0 s

/-! ## `unescape` -/

/-- The code unit an escape sequence after `%` stands for, with the number of code units
to pass over: `uXXXX` when at least five code units follow, else `XX`. -/
def unescapeAt (rest : JSString) : Option (Nat × Nat) :=
  match rest with
  | u :: a :: b :: c :: d :: _ =>
    if u = 117 then
      match hexVal a, hexVal b, hexVal c, hexVal d with
      | some x, some y, some z, some w => some (4096 * x + 256 * y + 16 * z + w, 5)
      | _, _, _, _ => none
    else (parseHexOctet rest).map (·, 2)
  | _ => (parseHexOctet rest).map (·, 2)

def unescapeLoop : Nat → JSString → JSString
  | _, [] => []
  | skip + 1, _ :: rest => unescapeLoop skip rest
  | 0, c :: rest =>
    if c = 37 then
      match unescapeAt rest with
      | some (v, adv) => v :: unescapeLoop adv rest
      | none => c :: unescapeLoop 0 rest
    else c :: unescapeLoop 0 rest

def unescape (s : JSString) : JSString := unescapeLoop 0 s

/-! ## `escape` -/

/-- The set left alone by `escape`: letters, digits and `@*_+-./`. -/
def isEscapeUnescaped (c : Nat) : Bool :=
  (97 ≤ c && c ≤ 122) || (65 ≤ c && c ≤ 90) || (48 ≤ c && c ≤ 57) ||
  c == 64 || c == 42 || c == 95 || c == 43 || c == 45 || c == 46 || c == 47

def escapeUnit16 (c : Nat) : JSString :=
  if isEscapeUnescaped c then [c]
  else if c < 256 then pctOctet c
  else [37, 117, hexDigit (c / 4096), hexDigit (c / 256 % 16), hexDigit (c / 16 % 16),
    hexDigit (c % 16)]

def escape (s : JSString) : JSString := s.flatMap escapeUnit16

/-! ## `btoa` and `atob` -/

/-- The base64 alphabet: the character of a 6-bit value. -/
def b64Char (n : Nat) : Nat :=
  if n < 26 then 65 + n else if n < 52 then 71 + n else if n < 62 then n - 4
  else if n = 62 then 43 else 47

/-- The 6-bit value of a base64 character. -/
def b64Val (c : Nat) : Option Nat :=
  if 65 ≤ c ∧ c ≤ 90 then some (c - 65)
  else if 97 ≤ c ∧ c ≤ 122 then some (c - 71)
  else if 48 ≤ c ∧ c ≤ 57 then some (c + 4)
  else if c = 43 then some 62
  else if c = 47 then some 63
  else none

def b64EncodeBytes : List Nat → JSString
  | [] => []
  | [a] => [b64Char (a / 4), b64Char (a % 4 * 16), 61, 61]
  | [a, b] => [b64Char (a / 4), b64Char (a % 4 * 16 + b / 16), b64Char (b % 16 * 4), 61]
  | a :: b :: c :: rest =>
    b64Char (a / 4) :: b64Char (a % 4 * 16 + b / 16) :: b64Char (b % 16 * 4 + c / 64) ::
      b64Char (c % 64) :: b64EncodeBytes rest

def btoa (s : JSString) : Except JSError JSString :=
  if s.all (· < 256) then .ok (b64EncodeBytes s) else .error .InvalidCharacterError

def isAsciiWhitespace (c : Nat) : Bool := c == 9 || c == 10 || c == 12 || c == 13 || c == 32

def stripPadding (d : JSString) : JSString :=
  if d.getLast? = some 61 then
    if d.dropLast.getLast? = some 61 then d.dropLast.dropLast else d.dropLast
  else d

def b64DecodeVals : List Nat → List Nat
  | a :: b :: c :: d :: rest =>
    (a * 4 + b / 16) :: (b % 16 * 16 + c / 4) :: (c % 4 * 64 + d) :: b64DecodeVals rest
  | [a, b, c] => [a * 4 + b / 16, b % 16 * 16 + c / 4]
  | [a, b] => [a * 4 + b / 16]
  | _ => []

/-- All 6-bit values of a text, if every code unit is in the base64 alphabet. -/
def b64Vals : JSString → Option (List Nat)
  | [] => some []
  | c :: rest =>
    match b64Val c, b64Vals rest with
    | some v, some vs => some (v :: vs)
    | _, _ => none

def atob (data : JSString) : Except JSError JSString :=
  let d1 := data.filter fun c => !isAsciiWhitespace c
  let d2 := if d1.length % 4 = 0 then stripPadding d1 else d1
  if d2.length % 4 = 1 then .error .InvalidCharacterError
  else
    match b64Vals d2 with
    | none => .error .InvalidCharacterError
    | some vs => .ok (b64DecodeVals vs)

/-! ## `decodeURIComponent` -/

/-- The number of leading 1 bits of an octet. -/
def leadingOnes (b : Nat) : Nat :=
  if b < 0x80 then 0 else if b < 0xC0 then 1 else if b < 0xE0 then 2 else if b < 0xF0 then 3
  else if b < 0xF8 then 4 else if b < 0xFC then 5 else if b < 0xFE then 6
  else if b < 0xFF then 7 else 8

/-- The next `m` escape sequences `%XX` of a text, as octets. -/
def continuationOctets : Nat → JSString → Option (List Nat)
  | 0, _ => some []
  | m + 1, p :: h :: l :: s =>
    if p = 37 then
      match parseHexOctet [h, l], continuationOctets m s with
      | some b, some bs => some (b :: bs)
      | _, _ => none
    else none
  | _ + 1, _ => none

/-- The code point a list of two to four octets encodes in UTF-8, when it is the valid
encoding of a code point: continuation octets `10xxxxxx`, no overlong form, no surrogate,
at most `0x10FFFF`. -/
def utf8DecodeOctets : List Nat → Option Nat
  | [b0, b1] =>
    let v := b0 % 32 * 64 + b1 % 64
    if b1 / 64 = 2 ∧ 0x80 ≤ v then some v else none
  | [b0, b1, b2] =>
    let v := b0 % 16 * 4096 + b1 % 64 * 64 + b2 % 64
    if b1 / 64 = 2 ∧ b2 / 64 = 2 ∧ 0x800 ≤ v ∧ ¬(0xD800 ≤ v ∧ v ≤ 0xDFFF) then some v else none
  | [b0, b1, b2, b3] =>
    let v := b0 % 8 * 262144 + b1 % 64 * 4096 + b2 % 64 * 64 + b3 % 64
    if b1 / 64 = 2 ∧ b2 / 64 = 2 ∧ b3 / 64 = 2 ∧ 0x10000 ≤ v ∧ v ≤ 0x10FFFF then some v
    else none
  | _ => none

def decodeLoop : Nat → JSString → Except JSError JSString
  | _, [] => .ok []
  | skip + 1, _ :: rest => decodeLoop skip rest
  | 0, c :: rest =>
    if c = 37 then
      match parseHexOctet rest with
      | none => .error .URIError
      | some b =>
        if leadingOnes b = 0 then (decodeLoop 2 rest).map (b :: ·)
        else if leadingOnes b = 1 ∨ 4 < leadingOnes b then .error .URIError
        else
          match continuationOctets (leadingOnes b - 1) (rest.drop 2) with
          | none => .error .URIError
          | some octets =>
            match utf8DecodeOctets (b :: octets) with
            | none => .error .URIError
            | some v =>
              (decodeLoop (2 + 3 * (leadingOnes b - 1)) rest).map
                (utf16EncodeCodePoint v ++ ·)
    else (decodeLoop 0 rest).map (c :: ·)

def decodeURIComponent (s : JSString) : Except JSError JSString := decodeLoop 0 s

/-! ## The codec of app.js -/

def base64Encode (str : JSString) : Except JSError JSString :=
  match encodeURIComponent str with
  | .ok e => btoa (unescape e)
  | .error err => .error err

def base64Decode (str : JSString) : JSString :=
  match atob str with
  | .ok b =>
    match decodeURIComponent (escape b) with
    | .ok s => s
    | .error _ => []
  | .error _ => []

/-! ## Specification-level notions -/

/-- Every surrogate code unit is half of a surrogate pair
(`String.prototype.isWellFormed`). -/
def isWellFormedUTF16 : JSString → Bool
  | [] => true
  | [c] => !isLeadSurrogate c && !isTrailSurrogate c
  | c :: d :: rest =>
    if isLeadSurrogate c then isTrailSurrogate d && isWellFormedUTF16 rest
    else !isTrailSurrogate c && isWellFormedUTF16 (d :: rest)

/-- The UTF-8 encoding of a well-formed text. -/
def utf8Bytes : JSString → List Nat
  | [] => []
  | [c] => utf8Encode c
  | c :: d :: rest =>
    if isLeadSurrogate c then utf8Encode (surrogatePairToCodePoint c d) ++ utf8Bytes rest
    else utf8Encode c ++ utf8Bytes (d :: rest)

/-- The first well-formed UTF-8 byte sequence of a list of bytes (Unicode, Table 3-7):
the code point it encodes and its length. -/
def utf8Head : List Nat → Option (Nat × Nat)
  | [] => none
  | b0 :: rest =>
    if b0 ≤ 0x7F then some (b0, 1)
    else if 0xC2 ≤ b0 ∧ b0 ≤ 0xDF then
      match rest with
      | b1 :: _ =>
        if 0x80 ≤ b1 ∧ b1 ≤ 0xBF then some (b0 % 32 * 64 + b1 % 64, 2) else none
      | _ => none
    else if 0xE0 ≤ b0 ∧ b0 ≤ 0xEF then
      match rest with
      | b1 :: b2 :: _ =>
        if (if b0 = 0xE0 then 0xA0 else 0x80) ≤ b1 ∧ b1 ≤ (if b0 = 0xED then 0x9F else 0xBF) ∧
            0x80 ≤ b2 ∧ b2 ≤ 0xBF then
          some (b0 % 16 * 4096 + b1 % 64 * 64 + b2 % 64, 3)
        else none
      | _ => none
    else if 0xF0 ≤ b0 ∧ b0 ≤ 0xF4 then
      match rest with
      | b1 :: b2 :: b3 :: _ =>
        if (if b0 = 0xF0 then 0x90 else 0x80) ≤ b1 ∧ b1 ≤ (if b0 = 0xF4 then 0x8F else 0xBF) ∧
            0x80 ≤ b2 ∧ b2 ≤ 0xBF ∧ 0x80 ≤ b3 ∧ b3 ≤ 0xBF then
          some (b0 % 8 * 262144 + b1 % 64 * 4096 + b2 % 64 * 64 + b3 % 64, 4)
        else none
      | _ => none
    else none

/-- The code points of a list of bytes read as UTF-8, when it is well-formed UTF-8;
`skip` bytes are passed over first. -/
def utf8DecodeLoop : Nat → List Nat → Option (List Nat)
  | _, [] => some []
  | skip + 1, _ :: rest => utf8DecodeLoop skip rest
  | 0, b :: rest =>
    match utf8Head (b :: rest) with
    | none => none
    | some (v, n) => (utf8DecodeLoop (n - 1) rest).map (v :: ·)

def utf8Decode (bs : List Nat) : Option (List Nat) := utf8DecodeLoop 0 bs

/-- Well-formed UTF-8. -/
def isValidUtf8 (bs : List Nat) : Bool := (utf8Decode bs).isSome

/-- The base64 text of a list of bytes without its padding. -/
def b64EncodeUnpadded : List Nat → JSString
  | [] => []
  | [a] => [b64Char (a / 4), b64Char (a % 4 * 16)]
  | [a, b] => [b64Char (a / 4), b64Char (a % 4 * 16 + b / 16), b64Char (b % 16 * 4)]
  | a :: b :: c :: rest =>
    b64Char (a / 4) :: b64Char (a % 4 * 16 + b / 16) :: b64Char (b % 16 * 4 + c / 64) ::
      b64Char (c % 64) :: b64EncodeUnpadded rest

/-- The 6-bit values the base64 text of a list of bytes is made of. -/
def b64Sextets : List Nat → List Nat
  | [] => []
  | [a] => [a / 4, a % 4 * 16]
  | [a, b] => [a / 4, a % 4 * 16 + b / 16, b % 16 * 4]
  | a :: b :: c :: rest =>
    (a / 4) :: (a % 4 * 16 + b / 16) :: (b % 16 * 4 + c / 64) :: (c % 64) :: b64Sextets rest

/-- The first `m` bytes of a list, when there are `m` and `escape` writes each of them as
an escape sequence `%XX`. -/
def takeEscaped : Nat → List Nat → Option (List Nat)
  | 0, _ => some []
  | _ + 1, [] => none
  | m + 1, b :: t =>
    if isEscapeUnescaped b then none
    else
      match takeEscaped m t with
      | some bs => some (b :: bs)
      | none => none

/-- What `encodeURIComponent` writes for one code point. -/
def uriUnit (cp : Nat) : JSString :=
  if isUriUnreserved cp then [cp] else (utf8Encode cp).flatMap pctOctet

/-! ## Whitespace and `trim` -/

/-- The code units `String.prototype.trim` removes: `WhiteSpace` and `LineTerminator`. -/
def isJSWhiteSpace (c : Nat) : Bool :=
  c == 9 || c == 10 || c == 11 || c == 12 || c == 13 || c == 32 || c == 0xA0 ||
  c == 0x1680 || (0x2000 ≤ c && c ≤ 0x200A) || c == 0x2028 || c == 0x2029 ||
  c == 0x202F || c == 0x205F || c == 0x3000 || c == 0xFEFF

def trimStart (s : JSString) : JSString := s.dropWhile isJSWhiteSpace

def trimEnd (s : JSString) : JSString := (s.reverse.dropWhile isJSWhiteSpace).reverse

/-- `s.trim()`. -/
def trim (s : JSString) : JSString := trimEnd (trimStart s)

/-- `s.endsWith(t)`. -/
def endsWith (s t : JSString) : Bool := t.isSuffixOf s

/-- The text a `textarea` reports as its `value` after a text was assigned to it (its API
value in the HTML standard): every pair CR LF, and every other CR, is replaced by LF.  The
editor `#sql-editor` of the page is a `textarea`; the markup is not part of the script. -/
def normalizeNewlines : JSString → JSString
  | [] => []
  | [c] => if c = 13 then [10] else [c]
  | c :: d :: rest =>
    if c = 13 then
      if d = 10 then 10 :: normalizeNewlines rest else 10 :: normalizeNewlines (d :: rest)
    else c :: normalizeNewlines (d :: rest)

/-! ## The rendering surface -/

/-- A child of the results container. -/
inductive Node
  /-- The nodes parsed from a markup string (`insertAdjacentHTML`, `innerHTML = ...`). -/
  | markup (html : JSString)
  /-- The `div.message` placed before a table, with its `textContent`. -/
  | caption (text : JSString)
  /-- A table: the `textContent` of its header cells and the `innerHTML` of its body
  cells, row by row. -/
  | table (header : List JSString) (body : List (List JSString))
  deriving DecidableEq

/-- One element of the array `database.exec` returns. -/
structure ResultSet (N : Type) where
  columns : List JSString
  values : List (List (JSValue N))

/-- `<div class="message ok">` followed by the payload and `</div>`. -/
def okMessage (payload : JSString) : Node :=
  .markup (lit "<div class=\"message ok\">" ++ payload ++ lit "</div>")

/-- `<div class="message err">` followed by the payload and `</div>`. -/
def errMessage (payload : JSString) : Node :=
  .markup (lit "<div class=\"message err\">" ++ payload ++ lit "</div>")

/-- The neutral message of an empty batch. -/
def noRowsMessage : Node :=
  .markup (lit "<div class=\"message\">Statement executed. No rows returned.</div>")

/-- The neutral message of a blank query. -/
def typeSqlMessage : Node :=
  .markup (lit "<div class=\"message\">Type a SQL statement to run.</div>")

/-- The table built for one result set (app.js 152-176). -/
def renderTable {N : Type} (numberToString : N → JSString) (result : ResultSet N) : Node :=
  .table result.columns (result.values.map fun row => row.map (escapeHtml numberToString))

/-- The body of `execResults.forEach((result, idx) => ...)` from index `idx` on; `multi` is
`execResults.length > 1`. -/
def renderTables {N : Type} (numberToString : N → JSString) (multi : Bool) :
    Nat → List (ResultSet N) → List Node
  | _, [] => []
  | idx, result :: rest =>
    (if multi then [Node.caption (lit "Result set " ++ natToString (idx + 1))] else []) ++
      renderTable numberToString result :: renderTables numberToString multi (idx + 1) rest

/-- `renderResults(execResults, infoMessage)` (app.js 138-186): the children of the results
container afterwards.  `execResults` is `none` for a null argument; an omitted `infoMessage`
is the empty text. -/
def renderResults {N : Type} (numberToString : N → JSString)
    (execResults : Option (List (ResultSet N))) (infoMessage : JSString) : List Node :=
  let info := if infoMessage ≠ [] then
    [okMessage (escapeHtml numberToString (.string infoMessage))] else []
  match execResults with
  | none => if infoMessage = [] then info ++ [noRowsMessage] else info
  | some [] => if infoMessage = [] then info ++ [noRowsMessage] else info
  | some (r :: rs) =>
    info ++ renderTables numberToString (decide (1 < (r :: rs).length)) 0 (r :: rs)

/-! ## The session -/

/-- The engine: `database.exec(sql)` returns the result sets or throws an error with a
message, and leaves the database in a new state either way. -/
structure Engine (DB N : Type) where
  exec : DB → JSString → DB × Except JSString (List (ResultSet N))

/-- The state the handlers read and write. -/
structure App (DB : Type) where
  /-- The value the editor reports, `editorEl().value`. -/
  editor : JSString
  /-- The children of `resultsEl()`. -/
  results : List Node
  /-- The global `database`. -/
  database : DB
  /-- The texts passed to `database.exec` so far. -/
  execCalls : List JSString
  /-- The global `currentLessonId`; `none` is `null`. -/
  currentLessonId : Option JSString

/-- `runSql(sql)` (app.js 188-195). -/
def runSql {DB N : Type} (engine : Engine DB N) (numberToString : N → JSString)
    (st : App DB) (sql : JSString) : App DB :=
  match engine.exec st.database sql with
  | (db, .ok results) =>
    { st with database := db, execCalls := st.execCalls ++ [sql],
              results := renderResults numberToString (some results) [] }
  | (db, .error message) =>
    { st with database := db, execCalls := st.execCalls ++ [sql],
              results := [errMessage (escapeHtml numberToString (.string message))] }

/-- `handleRunQuery()` (app.js 274-281). -/
def handleRunQuery {DB N : Type} (engine : Engine DB N) (numberToString : N → JSString)
    (st : App DB) : App DB :=
  if trim st.editor = [] then { st with results := [typeSqlMessage] }
  else runSql engine numberToString st st.editor

/-- The assignment `editorEl().value = text`: from then on the editor reports the text with
its line breaks normalized. -/
def setEditorValue {DB : Type} (st : App DB) (text : JSString) : App DB :=
  { st with editor := normalizeNewlines text }

/-- `loadFromUrl()` (app.js 305-312); `param` is `url.searchParams.get('sql')`, `none` when
the address has no such parameter. -/
def loadFromUrl {DB : Type} (param : Option JSString) (st : App DB) : App DB :=
  match param with
  | none => st
  | some encoded =>
    if encoded ≠ [] then
      if base64Decode encoded ≠ [] then setEditorValue st (base64Decode encoded) else st
    else st

/-! ## Lessons -/

structure Lesson where
  id : JSString
  title : JSString
  description : JSString
  /-- The field `example` of the source. -/
  exampleText : JSString
  deriving DecidableEq

structure LessonGroup where
  title : JSString
  items : List Lesson

def LESSONS : List LessonGroup := [
  { title := lit "Basics",
    items := [
      { id := lit "select", title := lit "SELECT",
        description := lit "Retrieve columns from a table.",
        exampleText := lit "SELECT id, name FROM employees;" },
      { id := lit "where", title := lit "WHERE",
        description := lit "Filter rows based on a condition.",
        exampleText := lit "SELECT name, salary FROM employees WHERE salary > 80000;" },
      { id := lit "order", title := lit "ORDER BY",
        description := lit "Sort results by one or more columns.",
        exampleText := lit "SELECT name, hire_date FROM employees ORDER BY hire_date DESC;" },
      { id := lit "limit", title := lit "LIMIT",
        description := lit "Limit the number of rows returned.",
        exampleText := lit "SELECT * FROM employees ORDER BY salary DESC LIMIT 3;" },
      { id := lit "distinct", title := lit "DISTINCT",
        description := lit "Return unique values only.",
        exampleText := lit "SELECT DISTINCT city FROM customers ORDER BY city;" },
      { id := lit "alias", title := lit "AS (alias)",
        description := lit "Give a column or table a temporary name.",
        exampleText := lit "SELECT e.name AS employee, d.name AS department FROM employees e JOIN departments d ON e.department_id = d.id;" }] },
  { title := lit "Filtering",
    items := [
      { id := lit "like", title := lit "LIKE",
        description := lit "Pattern matching.",
        exampleText := lit "SELECT name FROM customers WHERE name LIKE \x27A%\x27;" },
      { id := lit "in", title := lit "IN",
        description := lit "Match a list of values.",
        exampleText := lit "SELECT name FROM employees WHERE department_id IN (1, 3);" },
      { id := lit "between", title := lit "BETWEEN",
        description := lit "Match a range (inclusive).",
        exampleText := lit "SELECT name, salary FROM employees WHERE salary BETWEEN 70000 AND 100000;" },
      { id := lit "isnull", title := lit "IS NULL",
        description := lit "Test for NULL values.",
        exampleText := lit "SELECT name FROM employees WHERE manager_id IS NULL;" },
      { id := lit "case", title := lit "CASE",
        description := lit "Conditional expressions.",
        exampleText := lit "SELECT name, CASE WHEN salary >= 100000 THEN \x27High\x27 WHEN salary >= 80000 THEN \x27Medium\x27 ELSE \x27Low\x27 END AS salary_band FROM employees;" }] },
  { title := lit "Aggregation",
    items := [
      { id := lit "count", title := lit "COUNT",
        description := lit "Count rows.",
        exampleText := lit "SELECT COUNT(*) AS num_employees FROM employees;" },
      { id := lit "avg", title := lit "AVG",
        description := lit "Average of a column.",
        exampleText := lit "SELECT d.name AS department, ROUND(AVG(e.salary), 2) AS avg_salary FROM employees e JOIN departments d ON e.department_id = d.id GROUP BY d.name;" },
      { id := lit "group", title := lit "GROUP BY",
        description := lit "Group rows and aggregate.",
        exampleText := lit "SELECT d.name AS department, COUNT(*) AS num FROM employees e JOIN departments d ON e.department_id = d.id GROUP BY d.name HAVING COUNT(*) >= 2;" },
      { id := lit "having", title := lit "HAVING",
        description := lit "Filter aggregated groups.",
        exampleText := lit "SELECT department_id, COUNT(*) AS num FROM employees GROUP BY department_id HAVING COUNT(*) > 1;" }] },
  { title := lit "Joins",
    items := [
      { id := lit "join", title := lit "INNER JOIN",
        description := lit "Return matching rows from both tables.",
        exampleText := lit "SELECT e.name, d.name AS department FROM employees e INNER JOIN departments d ON e.department_id = d.id;" },
      { id := lit "left", title := lit "LEFT JOIN",
        description := lit "All rows from left table, matched on right.",
        exampleText := lit "SELECT c.name, ROUND(IFNULL(SUM(o.amount),0),2) AS total_spent FROM customers c LEFT JOIN orders o ON o.customer_id = c.id GROUP BY c.id ORDER BY total_spent DESC;" },
      { id := lit "cross", title := lit "CROSS JOIN",
        description := lit "Cartesian product of two tables.",
        exampleText := lit "SELECT d.name AS department, c.city FROM departments d CROSS JOIN (SELECT DISTINCT city FROM customers) c ORDER BY d.name, c.city;" },
      { id := lit "self", title := lit "SELF JOIN",
        description := lit "Join a table to itself.",
        exampleText := lit "SELECT e1.name AS employee, e2.name AS manager FROM employees e1 LEFT JOIN employees e2 ON e1.manager_id = e2.id ORDER BY employee;" }] },
  { title := lit "Set operations",
    items := [
      { id := lit "union", title := lit "UNION",
        description := lit "Combine result sets, remove duplicates.",
        exampleText := lit "SELECT city FROM customers WHERE city LIKE \x27New%\x27 UNION SELECT city FROM customers WHERE city LIKE \x27San%\x27;" },
      { id := lit "intersect", title := lit "INTERSECT",
        description := lit "Rows common to both result sets.",
        exampleText := lit "SELECT city FROM customers WHERE city LIKE \x27%o%\x27 INTERSECT SELECT city FROM customers WHERE city LIKE \x27%i%\x27;" },
      { id := lit "except", title := lit "EXCEPT",
        description := lit "Rows from first not in second.",
        exampleText := lit "SELECT city FROM customers EXCEPT SELECT city FROM customers WHERE city=\x27Chicago\x27;" }] },
  { title := lit "DDL & Indexes",
    items := [
      { id := lit "create-table", title := lit "CREATE TABLE",
        description := lit "Create a new table.",
        exampleText := lit "CREATE TABLE projects (id INTEGER PRIMARY KEY, name TEXT, department_id INTEGER);" },
      { id := lit "insert", title := lit "INSERT",
        description := lit "Insert rows into a table.",
        exampleText := lit "INSERT INTO projects (name, department_id) VALUES (\x27Migration\x27, 1); SELECT * FROM projects;" },
      { id := lit "update", title := lit "UPDATE",
        description := lit "Modify existing rows.",
        exampleText := lit "UPDATE employees SET salary = salary * 1.05 WHERE department_id = 2; SELECT name, salary FROM employees WHERE department_id = 2 ORDER BY salary DESC;" },
      { id := lit "delete", title := lit "DELETE",
        description := lit "Remove rows from a table.",
        exampleText := lit "DELETE FROM orders WHERE amount < 100; SELECT * FROM orders ORDER BY id;" },
      { id := lit "alter", title := lit "ALTER TABLE",
        description := lit "Change table structure (limited in SQLite).",
        exampleText := lit "ALTER TABLE employees ADD COLUMN email TEXT; UPDATE employees SET email = lower(name) || \x27@example.com\x27; SELECT name, email FROM employees ORDER BY id;" },
      { id := lit "drop-table", title := lit "DROP TABLE",
        description := lit "Remove a table.",
        exampleText := lit "DROP TABLE projects; SELECT name FROM sqlite_master WHERE type = \x27table\x27;" },
      { id := lit "create-index", title := lit "CREATE INDEX",
        description := lit "Add an index to speed up lookups.",
        exampleText := lit "CREATE INDEX idx_employees_dept ON employees(department_id); SELECT name FROM sqlite_master WHERE type=\x27index\x27;" }] },
  { title := lit "Transactions & Subqueries",
    items := [
      { id := lit "transaction", title := lit "BEGIN/COMMIT/ROLLBACK",
        description := lit "Group statements into a transaction.",
        exampleText := lit "BEGIN; UPDATE employees SET salary = salary - 1000 WHERE id = 2; ROLLBACK; SELECT id, name, salary FROM employees WHERE id = 2;" },
      { id := lit "exists", title := lit "EXISTS",
        description := lit "Test for existence of related rows.",
        exampleText := lit "SELECT name FROM customers c WHERE EXISTS (SELECT 1 FROM orders o WHERE o.customer_id = c.id AND o.amount > 200);" }] }]

/-- `String(id)` of a lesson identifier. -/
def idToString : Option JSString → JSString
  | none => [110, 117, 108, 108]
  | some s => s

/-- The inner loop of `findLesson`. -/
def findInItems (id : JSString) : List Lesson → Option Lesson
  | [] => none
  | item :: rest => if item.id = id then some item else findInItems id rest

/-- The outer loop of `findLesson`. -/
def findInGroups (id : JSString) : List LessonGroup → Option Lesson
  | [] => none
  | group :: rest =>
    match findInItems id group.items with
    | some item => some item
    | none => findInGroups id rest

/-- `findLesson(id)` (app.js 250-257) over a catalog; the script searches its constant
`LESSONS`. -/
def findLesson (catalog : List LessonGroup) (id : Option JSString) : Option Lesson :=
  findInGroups (idToString id) catalog

/-- `handleLoadExample()` (app.js 267-272) over a catalog. -/
def handleLoadExample {DB : Type} (catalog : List LessonGroup) (st : App DB) : App DB :=
  match findLesson catalog st.currentLessonId with
  | none => st
  | some lesson =>
    setEditorValue st (trim lesson.exampleText ++
      (if endsWith (trim lesson.exampleText) [59] then [] else [59]))

/-- A lesson whose example, ` SELECT 1 `, has a blank on either side and no terminator. -/
def blankLesson : Lesson :=
  { id := [120], title := [84], description := [68], exampleText := lit " SELECT 1 " }

/-- A catalog of one group holding `blankLesson`. -/
def blankCatalog : List LessonGroup := [{ title := [71], items := [blankLesson] }]

/-- A session state: the editor holds `old`, nothing is shown, no lesson is selected. -/
def sampleState : App Nat :=
  { editor := lit "old", results := [], database := 0, execCalls := [],
    currentLessonId := none }

/-- The tables among the nodes, in order: header texts and body cells. -/
def tablesOf : List Node → List (List JSString × List (List JSString))
  | [] => []
  | .table header body :: rest => (header, body) :: tablesOf rest
  | .markup _ :: rest => tablesOf rest
  | .caption _ :: rest => tablesOf rest

/-- The `innerHTML` of the body cell in row `i` and column `j` of the `k`-th table. -/
def bodyCell (nodes : List Node) (k i j : Nat) : Option JSString :=
  match (tablesOf nodes)[k]? with
  | none => none
  | some (_, body) =>
    match body[i]? with
    | none => none
    | some row => row[j]?

/-- The value in row `i` and column `j` of the `k`-th result set. -/
def cellValue {N : Type} (results : List (ResultSet N)) (k i j : Nat) : Option (JSValue N) :=
  match results[k]? with
  | none => none
  | some result =>
    match result.values[i]? with
    | none => none
    | some row => row[j]?

/-- The characters of base64 text: the alphabet `A-Z a-z 0-9 + /`. -/
def isBase64Alphabet (c : Nat) : Bool :=
  (65 ≤ c && c ≤ 90) || (97 ≤ c && c ≤ 122) || (48 ≤ c && c ≤ 57) || c == 43 || c == 47

/-- A locator is malformed when it is not base64 (`atob` rejects it) or is the base64 of
bytes that are not well-formed UTF-8. -/
def isMalformedLocator (s : JSString) : Bool :=
  match atob s with
  | .error _ => true
  | .ok b => !isValidUtf8 b

/-! ## Lemmas: replacement -/

theorem replaceAll_nil (p : Nat → Bool) (r : JSString) : replaceAll p r [] = [] := rfl

theorem replaceAll_cons (p : Nat → Bool) (r : JSString) (c : Nat) (s : JSString) :
    replaceAll p r (c :: s) = (if p c then r else [c]) ++ replaceAll p r s := by
  simp [replaceAll, List.flatMap_cons]

theorem replaceAll_append (p : Nat → Bool) (r : JSString) (s t : JSString) :
    replaceAll p r (s ++ t) = replaceAll p r s ++ replaceAll p r t := by
  simp [replaceAll, List.flatMap_append]

theorem escapeHtmlText_nil : escapeHtmlText [] = [] := rfl

theorem escapeHtmlText_append (s t : JSString) :
    escapeHtmlText (s ++ t) = escapeHtmlText s ++ escapeHtmlText t := by
  simp [escapeHtmlText, replaceAll_append]

theorem escapeHtmlText_singleton (c : Nat) : escapeHtmlText [c] = escapeUnit c := by
  unfold escapeUnit
  by_cases h38 : c = 38
  · subst h38; decide
  by_cases h60 : c = 60
  · subst h60; decide
  by_cases h62 : c = 62
  · subst h62; decide
  by_cases h34 : c = 34
  · subst h34; decide
  by_cases h39 : c = 39
  · subst h39; decide
  simp [escapeHtmlText, replaceAll, h38, h60, h62, h34, h39]

theorem escapeHtmlText_cons (c : Nat) (s : JSString) :
    escapeHtmlText (c :: s) = escapeUnit c ++ escapeHtmlText s := by
  have h : c :: s = [c] ++ s := rfl
  rw [h, escapeHtmlText_append, escapeHtmlText_singleton]

theorem escapeUnit_no_markup (c : Nat) : ∀ d ∈ escapeUnit c, isMarkupChar d = false := by
  intro d hd
  unfold escapeUnit at hd
  split_ifs at hd with h1 h2 h3 h4 h5
  · revert d; decide
  · revert d; decide
  · revert d; decide
  · revert d; decide
  · revert d; decide
  · simp at hd; subst hd
    simp [isMarkupChar, h2, h3, h4, h5]

theorem escapeHtmlText_no_markup (s : JSString) :
    ∀ d ∈ escapeHtmlText s, isMarkupChar d = false := by
  induction s with
  | nil => simp [escapeHtmlText_nil]
  | cons c s ih =>
    intro d hd
    rw [escapeHtmlText_cons, List.mem_append] at hd
    rcases hd with hd | hd
    · exact escapeUnit_no_markup c d hd
    · exact ih d hd

/-- An ampersand inside `escapeUnit c` is its first code unit, and then `escapeUnit c` is one
of the five entities. -/
theorem escapeUnit_amp (c : Nat) (i : Nat) (h : (escapeUnit c)[i]? = some 38) :
    i = 0 ∧ escapeUnit c ∈ entities := by
  unfold escapeUnit at h ⊢
  split_ifs at h ⊢ with h1 h2 h3 h4 h5
  · refine ⟨?_, by decide⟩
    match i with
    | 0 => rfl
    | 1 | 2 | 3 | 4 => simp [entAmp] at h
    | n + 5 => simp [entAmp] at h
  · refine ⟨?_, by decide⟩
    match i with
    | 0 => rfl
    | 1 | 2 | 3 => simp [entLt] at h
    | n + 4 => simp [entLt] at h
  · refine ⟨?_, by decide⟩
    match i with
    | 0 => rfl
    | 1 | 2 | 3 => simp [entGt] at h
    | n + 4 => simp [entGt] at h
  · refine ⟨?_, by decide⟩
    match i with
    | 0 => rfl
    | 1 | 2 | 3 | 4 | 5 => simp [entQuot] at h
    | n + 6 => simp [entQuot] at h
  · refine ⟨?_, by decide⟩
    match i with
    | 0 => rfl
    | 1 | 2 | 3 | 4 | 5 => simp [entApos] at h
    | n + 6 => simp [entApos] at h
  · match i with
    | 0 => simp at h; exact absurd h h1
    | n + 1 => simp at h

theorem escapeHtmlText_amp (s : JSString) (i : Nat) (h : (escapeHtmlText s)[i]? = some 38) :
    ∃ e ∈ entities, e <+: (escapeHtmlText s).drop i := by
  induction s generalizing i with
  | nil => simp [escapeHtmlText_nil] at h
  | cons c s ih =>
    rw [escapeHtmlText_cons] at h ⊢
    by_cases hi : i < (escapeUnit c).length
    · rw [List.getElem?_append_left hi] at h
      obtain ⟨h0, he⟩ := escapeUnit_amp c i h
      subst h0
      exact ⟨escapeUnit c, he, by simp⟩
    · have hi2 : (escapeUnit c).length ≤ i := Nat.le_of_not_lt hi
      rw [List.getElem?_append_right hi2] at h
      obtain ⟨e, he, hp⟩ := ih _ h
      refine ⟨e, he, ?_⟩
      rw [List.drop_append_eq_append_drop, List.drop_eq_nil_of_le hi2]
      simpa using hp

theorem escapeIdentifier_eq_filter (name : JSString) :
    escapeIdentifier name = name.filter isIdentChar := by
  induction name with
  | nil => rfl
  | cons c s ih =>
    unfold escapeIdentifier at ih ⊢
    rw [replaceAll_cons, ih]
    cases hc : isIdentChar c <;> simp [List.filter_cons, hc]

/-! ## Lemmas: hexadecimal digits -/

theorem hexVal_hexDigit (n : Nat) (h : n < 16) : hexVal (hexDigit n) = some n := by
  interval_cases n <;> rfl

theorem hexDigit_ne_u (n : Nat) (h : n < 16) : hexDigit n ≠ 117 := by
  interval_cases n <;> decide

theorem parseHexOctet_pct (b : Nat) (hb : b < 256) (s : JSString) :
    parseHexOctet (hexDigit (b / 16) :: hexDigit (b % 16) :: s) = some b := by
  have h1 : b / 16 < 16 := by omega
  have h2 : b % 16 < 16 := by omega
  simp only [parseHexOctet, hexVal_hexDigit _ h1, hexVal_hexDigit _ h2]
  congr 1
  omega

/-! ## Lemmas: `unescape` after `encodeURIComponent` -/

theorem unescapeLoop_cons_of_ne (c : Nat) (hc : c ≠ 37) (s : JSString) :
    unescapeLoop 0 (c :: s) = c :: unescapeLoop 0 s := by
  simp [unescapeLoop, hc]

theorem unescapeAt_of_ne_u (h l : Nat) (s : JSString) (hu : h ≠ 117) :
    unescapeAt (h :: l :: s) = (parseHexOctet (h :: l :: s)).map (·, 2) := by
  unfold unescapeAt
  split
  · rename_i heq
    simp only [List.cons.injEq] at heq
    obtain ⟨rfl, -⟩ := heq
    simp [hu]
  · rfl

theorem unescapeLoop_pct (b : Nat) (hb : b < 256) (s : JSString) :
    unescapeLoop 0 (pctOctet b ++ s) = b :: unescapeLoop 0 s := by
  have h1 : b / 16 < 16 := by omega
  simp only [pctOctet, List.cons_append, List.nil_append]
  rw [unescapeLoop]
  simp only [if_true]
  rw [unescapeAt_of_ne_u _ _ _ (hexDigit_ne_u _ h1), parseHexOctet_pct b hb]
  simp [unescapeLoop]

theorem unescapeLoop_pcts (bs : List Nat) (hbs : ∀ b ∈ bs, b < 256) (s : JSString) :
    unescapeLoop 0 (bs.flatMap pctOctet ++ s) = bs ++ unescapeLoop 0 s := by
  induction bs with
  | nil => rfl
  | cons b bs ih =>
    rw [List.flatMap_cons, List.append_assoc, unescapeLoop_pct b (hbs b (by simp)),
      ih (fun x hx => hbs x (by simp [hx]))]
    rfl

theorem utf8Encode_lt (cp : Nat) (h : cp < 0x110000) : ∀ b ∈ utf8Encode cp, b < 256 := by
  intro b hb
  unfold utf8Encode at hb
  split_ifs at hb <;> simp at hb <;> omega

theorem isUriUnreserved_lt (c : Nat) (h : isUriUnreserved c = true) : c < 128 ∧ c ≠ 37 := by
  simp [isUriUnreserved] at h
  omega

theorem encodeLoop_single (c : Nat) (rest : JSString) (hl : isLeadSurrogate c = false)
    (ht : isTrailSurrogate c = false) :
    encodeLoop 0 (c :: rest) = (encodeLoop 0 rest).map (uriUnit c ++ ·) := by
  by_cases hu : isUriUnreserved c = true
  · simp [encodeLoop, hu, uriUnit]
  · simp [encodeLoop, hu, hl, ht, uriUnit]

theorem surrogate_not_unreserved (c : Nat) (h : 0xD800 ≤ c) : isUriUnreserved c = false := by
  cases hu : isUriUnreserved c
  · rfl
  · have := isUriUnreserved_lt c hu
    omega

theorem encodeLoop_pair (c d : Nat) (rest : JSString) (hl : isLeadSurrogate c = true)
    (ht : isTrailSurrogate d = true) :
    encodeLoop 0 (c :: d :: rest) =
      (encodeLoop 0 rest).map (uriUnit (surrogatePairToCodePoint c d) ++ ·) := by
  have hc : 0xD800 ≤ c ∧ c ≤ 0xDBFF := by simpa [isLeadSurrogate] using hl
  have hc2 : isTrailSurrogate c = false := by
    simp [isTrailSurrogate]; omega
  have hp : isUriUnreserved (surrogatePairToCodePoint c d) = false := by
    apply surrogate_not_unreserved
    unfold surrogatePairToCodePoint
    omega
  simp [surrogate_not_unreserved c hc.1, hc2, hl, ht, uriUnit, hp, encodeLoop]

theorem unescapeLoop_uriUnit (cp : Nat) (h : cp < 0x110000) (e : JSString) :
    unescapeLoop 0 (uriUnit cp ++ e) = utf8Encode cp ++ unescapeLoop 0 e := by
  unfold uriUnit
  by_cases hu : isUriUnreserved cp = true
  · have := isUriUnreserved_lt cp hu
    simp only [hu, if_true, List.cons_append, List.nil_append]
    rw [unescapeLoop_cons_of_ne cp this.2]
    simp [utf8Encode, this.1]
  · simp only [hu]
    exact unescapeLoop_pcts _ (utf8Encode_lt cp h) e

theorem surrogatePair_lt (c d : Nat) (hl : isLeadSurrogate c = true)
    (ht : isTrailSurrogate d = true) :
    0x10000 ≤ surrogatePairToCodePoint c d ∧ surrogatePairToCodePoint c d < 0x110000 := by
  simp only [isLeadSurrogate, isTrailSurrogate, Bool.and_eq_true, decide_eq_true_eq] at hl ht
  unfold surrogatePairToCodePoint
  omega

/-- On a well-formed text `encodeURIComponent` returns, and `unescape` turns its result
into the UTF-8 bytes of the text. -/
theorem encode_unescape (x : JSString) (hx : IsJSString x)
    (hw : isWellFormedUTF16 x = true) :
    ∃ e, encodeLoop 0 x = .ok e ∧ unescapeLoop 0 e = utf8Bytes x := by
  induction x using isWellFormedUTF16.induct with
  | case1 => exact ⟨[], rfl, rfl⟩
  | case2 c =>
    simp [isWellFormedUTF16] at hw
    have hc : c < 65536 := hx c (by simp)
    refine ⟨uriUnit c, ?_, ?_⟩
    · rw [encodeLoop_single c [] hw.1 hw.2]; simp [encodeLoop, Except.map]
    · have := unescapeLoop_uriUnit c (by omega) []
      simpa [utf8Bytes, unescapeLoop] using this
  | case3 c d rest hl ih =>
    simp [isWellFormedUTF16, hl] at hw
    obtain ⟨e, he, hu⟩ := ih (fun a ha => hx a (by simp [ha])) hw.2
    refine ⟨uriUnit (surrogatePairToCodePoint c d) ++ e, ?_, ?_⟩
    · rw [encodeLoop_pair c d rest hl hw.1, he]; rfl
    · rw [unescapeLoop_uriUnit _ (surrogatePair_lt c d hl hw.1).2, hu]
      simp [utf8Bytes, hl]
  | case4 c d rest hl ih =>
    have hl2 : isLeadSurrogate c = false := by simpa using hl
    simp [isWellFormedUTF16, hl2] at hw
    have hc : c < 65536 := hx c (by simp)
    obtain ⟨e, he, hu⟩ := ih (fun a ha => hx a (by simp [ha])) hw.2
    refine ⟨uriUnit c ++ e, ?_, ?_⟩
    · rw [encodeLoop_single c _ hl2 hw.1, he]; rfl
    · rw [unescapeLoop_uriUnit _ (by omega), hu]
      simp [utf8Bytes, hl2]

/-- On a text with an unpaired surrogate `encodeURIComponent` throws a `URIError`. -/
theorem encode_illFormed (x : JSString) (hw : isWellFormedUTF16 x = false) :
    encodeLoop 0 x = .error .URIError := by
  induction x using isWellFormedUTF16.induct with
  | case1 => simp [isWellFormedUTF16] at hw
  | case2 c =>
    have h0 : 0xD800 ≤ c := by
      simp [isWellFormedUTF16, isLeadSurrogate, isTrailSurrogate] at hw
      by_contra hcon
      have := hw (by omega)
      omega
    by_cases ht : isTrailSurrogate c = true
    · simp [encodeLoop, surrogate_not_unreserved c h0, ht]
    · by_cases hl : isLeadSurrogate c = true
      · simp [encodeLoop, surrogate_not_unreserved c h0, ht, hl]
      · simp [isWellFormedUTF16, hl, ht] at hw
  | case3 c d rest hl ih =>
    simp [isWellFormedUTF16, hl] at hw
    by_cases ht : isTrailSurrogate d = true
    · rw [encodeLoop_pair c d rest hl ht, ih (hw ht)]; rfl
    · have hc : 0xD800 ≤ c ∧ c ≤ 0xDBFF := by simpa [isLeadSurrogate] using hl
      have hc2 : isTrailSurrogate c = false := by
        simp [isTrailSurrogate]; omega
      simp [encodeLoop, surrogate_not_unreserved c hc.1, hc2, hl, ht]
  | case4 c d rest hl ih =>
    have hl2 : isLeadSurrogate c = false := by simpa using hl
    simp [isWellFormedUTF16, hl2] at hw
    by_cases ht : isTrailSurrogate c = true
    · have h0 : 0xD800 ≤ c := by
        simp [isTrailSurrogate] at ht; omega
      simp [encodeLoop, surrogate_not_unreserved c h0, ht]
    · have ht2 : isTrailSurrogate c = false := by simpa using ht
      rw [encodeLoop_single c _ hl2 ht2, ih (hw ht2)]; rfl

/-! ## Lemmas: `atob` after `btoa` -/

theorem b64Val_b64Char (n : Nat) (h : n < 64) : b64Val (b64Char n) = some n := by
  interval_cases n <;> rfl

theorem b64Char_ne_pad (n : Nat) : b64Char n ≠ 61 := by
  unfold b64Char
  split_ifs <;> omega

theorem b64Char_not_ws (n : Nat) : isAsciiWhitespace (b64Char n) = false := by
  unfold b64Char isAsciiWhitespace
  split_ifs <;> simp <;> omega

theorem b64EncodeUnpadded_no_pad (bs : List Nat) : ∀ c ∈ b64EncodeUnpadded bs, c ≠ 61 := by
  induction bs using b64EncodeUnpadded.induct with
  | case1 => simp [b64EncodeUnpadded]
  | case2 a => simp [b64EncodeUnpadded, b64Char_ne_pad]
  | case3 a b => simp [b64EncodeUnpadded, b64Char_ne_pad]
  | case4 a b c rest ih =>
    intro x hx
    simp only [b64EncodeUnpadded, List.mem_cons] at hx
    rcases hx with rfl | rfl | rfl | rfl | hx
    · exact b64Char_ne_pad _
    · exact b64Char_ne_pad _
    · exact b64Char_ne_pad _
    · exact b64Char_ne_pad _
    · exact ih x hx

theorem b64EncodeBytes_eq (bs : List Nat) :
    b64EncodeBytes bs = b64EncodeUnpadded bs ++ List.replicate ((3 - bs.length % 3) % 3) 61 := by
  induction bs using b64EncodeUnpadded.induct with
  | case1 => rfl
  | case2 a => rfl
  | case3 a b => rfl
  | case4 a b c rest ih =>
    have hlen : (a :: b :: c :: rest).length % 3 = rest.length % 3 := by
      simp only [List.length_cons]; omega
    simp only [b64EncodeBytes, b64EncodeUnpadded, hlen, ih, List.cons_append]

theorem b64EncodeBytes_not_ws (bs : List Nat) :
    ∀ c ∈ b64EncodeBytes bs, isAsciiWhitespace c = false := by
  induction bs using b64EncodeUnpadded.induct with
  | case1 => simp [b64EncodeBytes]
  | case2 a => simp [b64EncodeBytes, b64Char_not_ws]; decide
  | case3 a b => simp [b64EncodeBytes, b64Char_not_ws]; decide
  | case4 a b c rest ih =>
    intro x hx
    simp only [b64EncodeBytes, List.mem_cons] at hx
    rcases hx with rfl | rfl | rfl | rfl | hx
    · exact b64Char_not_ws _
    · exact b64Char_not_ws _
    · exact b64Char_not_ws _
    · exact b64Char_not_ws _
    · exact ih x hx

theorem b64EncodeBytes_length (bs : List Nat) : (b64EncodeBytes bs).length % 4 = 0 := by
  induction bs using b64EncodeUnpadded.induct with
  | case1 => rfl
  | case2 a => simp [b64EncodeBytes]
  | case3 a b => simp [b64EncodeBytes]
  | case4 a b c rest ih =>
    simp only [b64EncodeBytes, List.length_cons]; omega

theorem b64EncodeUnpadded_length (bs : List Nat) :
    (b64EncodeUnpadded bs).length % 4 ≠ 1 := by
  induction bs using b64EncodeUnpadded.induct with
  | case1 => decide
  | case2 a => simp [b64EncodeUnpadded]
  | case3 a b => simp [b64EncodeUnpadded]
  | case4 a b c rest ih =>
    simp only [b64EncodeUnpadded, List.length_cons]; omega

theorem getLast?_ne_of_not_mem (s : JSString) (h : ∀ c ∈ s, c ≠ 61) : s.getLast? ≠ some 61 := by
  intro hl
  exact h 61 (List.mem_of_getLast?_eq_some hl) rfl

theorem stripPadding_replicate (s : JSString) (h : ∀ c ∈ s, c ≠ 61) (k : Nat) (hk : k ≤ 2) :
    stripPadding (s ++ List.replicate k 61) = s := by
  have hs := getLast?_ne_of_not_mem s h
  interval_cases k
  · simp [stripPadding, hs]
  · simp [stripPadding, List.replicate, hs]
  · have h2 : s ++ List.replicate 2 61 = (s ++ [61]) ++ [61] := by simp [List.replicate]
    rw [h2]
    simp [stripPadding]

theorem b64Vals_unpadded (bs : List Nat) (hbs : ∀ b ∈ bs, b < 256) :
    b64Vals (b64EncodeUnpadded bs) = some (b64Sextets bs) := by
  induction bs using b64EncodeUnpadded.induct with
  | case1 => rfl
  | case2 a =>
    have ha : a < 256 := hbs a (by simp)
    simp [b64EncodeUnpadded, b64Sextets, b64Vals, b64Val_b64Char (a / 4) (by omega),
      b64Val_b64Char (a % 4 * 16) (by omega)]
  | case3 a b =>
    have ha : a < 256 := hbs a (by simp)
    have hb : b < 256 := hbs b (by simp)
    simp [b64EncodeUnpadded, b64Sextets, b64Vals, b64Val_b64Char (a / 4) (by omega),
      b64Val_b64Char (a % 4 * 16 + b / 16) (by omega), b64Val_b64Char (b % 16 * 4) (by omega)]
  | case4 a b c rest ih =>
    have ha : a < 256 := hbs a (by simp)
    have hb : b < 256 := hbs b (by simp)
    have hc : c < 256 := hbs c (by simp)
    have ih2 := ih (fun x hx => hbs x (by simp [hx]))
    simp [b64EncodeUnpadded, b64Sextets, b64Vals, b64Val_b64Char (a / 4) (by omega),
      b64Val_b64Char (a % 4 * 16 + b / 16) (by omega),
      b64Val_b64Char (b % 16 * 4 + c / 64) (by omega), b64Val_b64Char (c % 64) (by omega), ih2]

theorem b64DecodeVals_sextets (bs : List Nat) (hbs : ∀ b ∈ bs, b < 256) :
    b64DecodeVals (b64Sextets bs) = bs := by
  induction bs using b64EncodeUnpadded.induct with
  | case1 => rfl
  | case2 a =>
    have ha : a < 256 := hbs a (by simp)
    simp only [b64Sextets, b64DecodeVals, List.cons.injEq, and_true]
    omega
  | case3 a b =>
    have ha : a < 256 := hbs a (by simp)
    have hb : b < 256 := hbs b (by simp)
    simp only [b64Sextets, b64DecodeVals, List.cons.injEq, and_true]
    omega
  | case4 a b c rest ih =>
    have ha : a < 256 := hbs a (by simp)
    have hb : b < 256 := hbs b (by simp)
    have hc : c < 256 := hbs c (by simp)
    have ih2 := ih (fun x hx => hbs x (by simp [hx]))
    simp only [b64Sextets, b64DecodeVals, ih2, List.cons.injEq, and_true]
    omega

/-- The function `atob` inverts `btoa` on every list of bytes. -/
theorem atob_b64EncodeBytes (bs : List Nat) (hbs : ∀ b ∈ bs, b < 256) :
    atob (b64EncodeBytes bs) = .ok bs := by
  have hf : (b64EncodeBytes bs).filter (fun c => !isAsciiWhitespace c) = b64EncodeBytes bs := by
    apply List.filter_eq_self.mpr
    intro c hc
    simp [b64EncodeBytes_not_ws bs c hc]
  have hs : stripPadding (b64EncodeBytes bs) = b64EncodeUnpadded bs := by
    rw [b64EncodeBytes_eq]
    exact stripPadding_replicate _ (b64EncodeUnpadded_no_pad bs) _ (by omega)
  unfold atob
  simp only [hf, b64EncodeBytes_length, if_true, hs, b64EncodeUnpadded_length, if_false,
    b64Vals_unpadded bs hbs, b64DecodeVals_sextets bs hbs]

/-! ## Lemmas: `decodeURIComponent` after `escape` -/

theorem escape_cons (b : Nat) (t : List Nat) : escape (b :: t) = escapeUnit16 b ++ escape t := by
  simp [escape, List.flatMap_cons]

theorem isEscapeUnescaped_lt (c : Nat) (h : isEscapeUnescaped c = true) : c < 128 ∧ c ≠ 37 := by
  simp [isEscapeUnescaped] at h
  omega

theorem escapeUnit16_unescaped (b : Nat) (h : isEscapeUnescaped b = true) :
    escapeUnit16 b = [b] := by
  simp [escapeUnit16, h]

theorem escapeUnit16_escaped (b : Nat) (hb : b < 256) (h : isEscapeUnescaped b = false) :
    escapeUnit16 b = [37, hexDigit (b / 16), hexDigit (b % 16)] := by
  simp [escapeUnit16, h, hb, pctOctet]

theorem decodeLoop_drop (k : Nat) (s : JSString) : decodeLoop k s = decodeLoop 0 (s.drop k) := by
  induction k generalizing s with
  | zero => rfl
  | succ k ih =>
    cases s with
    | nil => simp [decodeLoop]
    | cons c rest => simp only [decodeLoop, List.drop_succ_cons]; exact ih rest

theorem utf8DecodeLoop_drop (k : Nat) (s : List Nat) :
    utf8DecodeLoop k s = utf8DecodeLoop 0 (s.drop k) := by
  induction k generalizing s with
  | zero => rfl
  | succ k ih =>
    cases s with
    | nil => simp [utf8DecodeLoop]
    | cons c rest => simp only [utf8DecodeLoop, List.drop_succ_cons]; exact ih rest

theorem continuationOctets_escape (m : Nat) (t : List Nat) (ht : ∀ b ∈ t, b < 256) :
    continuationOctets m (escape t) = takeEscaped m t := by
  induction m generalizing t with
  | zero => simp [continuationOctets, takeEscaped]
  | succ m ih =>
    cases t with
    | nil => simp [escape, continuationOctets, takeEscaped]
    | cons b t =>
      have hb : b < 256 := ht b (by simp)
      have ht2 : ∀ x ∈ t, x < 256 := fun x hx => ht x (by simp [hx])
      rw [escape_cons]
      cases hu : isEscapeUnescaped b
      · rw [escapeUnit16_escaped b hb hu]
        have hp := parseHexOctet_pct b hb []
        simp only [List.cons_append, List.nil_append]
        simp only [continuationOctets, if_true, hp, ih t ht2, takeEscaped, hu]
        cases takeEscaped m t <;> simp
      · rw [escapeUnit16_unescaped b hu]
        have hne := (isEscapeUnescaped_lt b hu).2
        simp only [takeEscaped, hu, if_true]
        simp only [List.cons_append, List.nil_append]
        generalize escape t = s
        match s with
        | [] => simp [continuationOctets]
        | [_] => simp [continuationOctets]
        | _ :: _ :: _ => simp [continuationOctets, hne]

theorem escape_drop (m : Nat) (t octs : List Nat) (ht : ∀ b ∈ t, b < 256)
    (h : takeEscaped m t = some octs) :
    (escape t).drop (3 * m) = escape (t.drop m) ∧ octs = t.take m := by
  induction m generalizing t octs with
  | zero => simp [takeEscaped] at h; simp [h]
  | succ m ih =>
    cases t with
    | nil => simp [takeEscaped] at h
    | cons b t =>
      have hb : b < 256 := ht b (by simp)
      have ht2 : ∀ x ∈ t, x < 256 := fun x hx => ht x (by simp [hx])
      cases hu : isEscapeUnescaped b
      · simp only [takeEscaped, hu] at h
        cases hm : takeEscaped m t with
        | none => simp [hm] at h
        | some bs =>
          simp [hm] at h
          obtain ⟨hd, hbs⟩ := ih t bs ht2 hm
          rw [escape_cons, escapeUnit16_escaped b hb hu]
          have h3 : 3 * (m + 1) = (3 * m) + 3 := by ring
          rw [h3]
          simp only [List.cons_append, List.nil_append, List.drop_succ_cons, hd, List.take_succ_cons]
          exact ⟨trivial, by rw [← h, hbs]⟩
      · simp [takeEscaped, hu] at h

/-- One step of `decodeURIComponent` on an escape sequence written by `escape`. -/
theorem decodeLoop_pct (b : Nat) (hb : b < 256) (s : JSString) :
    decodeLoop 0 (37 :: hexDigit (b / 16) :: hexDigit (b % 16) :: s) =
      if leadingOnes b = 0 then (decodeLoop 0 s).map (b :: ·)
      else if leadingOnes b = 1 ∨ 4 < leadingOnes b then .error .URIError
      else
        match continuationOctets (leadingOnes b - 1) s with
        | none => .error .URIError
        | some octets =>
          match utf8DecodeOctets (b :: octets) with
          | none => .error .URIError
          | some v =>
            (decodeLoop 0 (s.drop (3 * (leadingOnes b - 1)))).map (utf16EncodeCodePoint v ++ ·) := by
  have hd : ∀ k, decodeLoop (2 + k) (hexDigit (b / 16) :: hexDigit (b % 16) :: s) =
      decodeLoop 0 (s.drop k) := by
    intro k
    rw [decodeLoop_drop]
    have : 2 + k = k + 1 + 1 := by ring
    rw [this]
    simp
  have hd0 := hd 0
  simp only [Nat.add_zero, List.drop_zero] at hd0
  simp only [decodeLoop, if_true, parseHexOctet_pct b hb, hd, hd0, List.drop_succ_cons,
    List.drop_zero]

/-! ## Lemmas: Table 3-7 against the decoding of `decodeURIComponent` -/

theorem not_unescaped_of_ge (b : Nat) (h : 128 ≤ b) : isEscapeUnescaped b = false := by
  cases hu : isEscapeUnescaped b
  · rfl
  · have := isEscapeUnescaped_lt b hu
    omega

theorem takeEscaped_cases (m : Nat) (t : List Nat) :
    takeEscaped m t = none ∨ takeEscaped m t = some (t.take m) := by
  induction m generalizing t with
  | zero => right; simp [takeEscaped]
  | succ m ih =>
    cases t with
    | nil => left; simp [takeEscaped]
    | cons b t =>
      cases hu : isEscapeUnescaped b
      · rcases ih t with h | h
        · left; simp [takeEscaped, hu, h]
        · right; simp [takeEscaped, hu, h]
      · left; simp [takeEscaped, hu]

theorem takeEscaped_short (m : Nat) (t : List Nat) (h : t.length < m) :
    takeEscaped m t = none := by
  induction m generalizing t with
  | zero => omega
  | succ m ih =>
    cases t with
    | nil => simp [takeEscaped]
    | cons b t =>
      simp only [List.length_cons] at h
      cases hu : isEscapeUnescaped b
      · simp [takeEscaped, hu, ih t (by omega)]
      · simp [takeEscaped, hu]

theorem utf8DecodeOctets_two (b0 b1 : Nat) :
    utf8DecodeOctets [b0, b1] =
      if b1 / 64 = 2 ∧ 0x80 ≤ b0 % 32 * 64 + b1 % 64 then some (b0 % 32 * 64 + b1 % 64)
      else none := rfl

theorem utf8DecodeOctets_three (b0 b1 b2 : Nat) :
    utf8DecodeOctets [b0, b1, b2] =
      if b1 / 64 = 2 ∧ b2 / 64 = 2 ∧ 0x800 ≤ b0 % 16 * 4096 + b1 % 64 * 64 + b2 % 64 ∧
          ¬(0xD800 ≤ b0 % 16 * 4096 + b1 % 64 * 64 + b2 % 64 ∧
            b0 % 16 * 4096 + b1 % 64 * 64 + b2 % 64 ≤ 0xDFFF) then
        some (b0 % 16 * 4096 + b1 % 64 * 64 + b2 % 64)
      else none := rfl

theorem utf8DecodeOctets_four (b0 b1 b2 b3 : Nat) :
    utf8DecodeOctets [b0, b1, b2, b3] =
      if b1 / 64 = 2 ∧ b2 / 64 = 2 ∧ b3 / 64 = 2 ∧
          0x10000 ≤ b0 % 8 * 262144 + b1 % 64 * 4096 + b2 % 64 * 64 + b3 % 64 ∧
          b0 % 8 * 262144 + b1 % 64 * 4096 + b2 % 64 * 64 + b3 % 64 ≤ 0x10FFFF then
        some (b0 % 8 * 262144 + b1 % 64 * 4096 + b2 % 64 * 64 + b3 % 64)
      else none := rfl

theorem utf8Head_one (b0 : Nat) (t : List Nat) (h : b0 < 0x80) :
    utf8Head (b0 :: t) = some (b0, 1) := by
  have a1 : b0 ≤ 0x7F := by omega
  simp only [utf8Head, a1, if_true]

theorem utf8Head_bad (b0 : Nat) (t : List Nat)
    (h : (0x80 ≤ b0 ∧ b0 < 0xC2) ∨ 0xF5 ≤ b0) : utf8Head (b0 :: t) = none := by
  have a1 : ¬ b0 ≤ 0x7F := by omega
  have a2 : ¬ (0xC2 ≤ b0 ∧ b0 ≤ 0xDF) := by omega
  have a3 : ¬ (0xE0 ≤ b0 ∧ b0 ≤ 0xEF) := by omega
  have a4 : ¬ (0xF0 ≤ b0 ∧ b0 ≤ 0xF4) := by omega
  simp only [utf8Head, a1, a2, a3, a4, if_false]

theorem utf8Head_two_cons (b0 b1 : Nat) (t : List Nat) (h0 : 0xC2 ≤ b0) (h1 : b0 < 0xE0) :
    utf8Head (b0 :: b1 :: t) =
      if 0x80 ≤ b1 ∧ b1 ≤ 0xBF then some (b0 % 32 * 64 + b1 % 64, 2) else none := by
  have a1 : ¬ b0 ≤ 0x7F := by omega
  have a2 : 0xC2 ≤ b0 ∧ b0 ≤ 0xDF := by omega
  simp only [utf8Head, a1, a2, if_false, if_true, and_self]

theorem utf8Head_three_cons (b0 b1 b2 : Nat) (t : List Nat) (h0 : 0xE0 ≤ b0) (h1 : b0 < 0xF0) :
    utf8Head (b0 :: b1 :: b2 :: t) =
      if (if b0 = 0xE0 then 0xA0 else 0x80) ≤ b1 ∧ b1 ≤ (if b0 = 0xED then 0x9F else 0xBF) ∧
          0x80 ≤ b2 ∧ b2 ≤ 0xBF then
        some (b0 % 16 * 4096 + b1 % 64 * 64 + b2 % 64, 3)
      else none := by
  have a1 : ¬ b0 ≤ 0x7F := by omega
  have a2 : ¬ (0xC2 ≤ b0 ∧ b0 ≤ 0xDF) := by omega
  have a3 : 0xE0 ≤ b0 ∧ b0 ≤ 0xEF := by omega
  simp only [utf8Head, a1, a2, a3, if_false, if_true, and_self]

theorem utf8Head_four_cons (b0 b1 b2 b3 : Nat) (t : List Nat) (h0 : 0xF0 ≤ b0)
    (h1 : b0 < 0xF5) :
    utf8Head (b0 :: b1 :: b2 :: b3 :: t) =
      if (if b0 = 0xF0 then 0x90 else 0x80) ≤ b1 ∧ b1 ≤ (if b0 = 0xF4 then 0x8F else 0xBF) ∧
          0x80 ≤ b2 ∧ b2 ≤ 0xBF ∧ 0x80 ≤ b3 ∧ b3 ≤ 0xBF then
        some (b0 % 8 * 262144 + b1 % 64 * 4096 + b2 % 64 * 64 + b3 % 64, 4)
      else none := by
  have a1 : ¬ b0 ≤ 0x7F := by omega
  have a2 : ¬ (0xC2 ≤ b0 ∧ b0 ≤ 0xDF) := by omega
  have a3 : ¬ (0xE0 ≤ b0 ∧ b0 ≤ 0xEF) := by omega
  have a4 : 0xF0 ≤ b0 ∧ b0 ≤ 0xF4 := by omega
  simp only [utf8Head, a1, a2, a3, a4, if_false, if_true, and_self]

theorem utf8Head_short (b0 : Nat) (t : List Nat) (h0 : 0x80 ≤ b0)
    (ht : t.length < leadingOnes b0 - 1) : utf8Head (b0 :: t) = none := by
  have a1 : ¬ b0 ≤ 0x7F := by omega
  unfold leadingOnes at ht
  rcases t with _ | ⟨b1, _ | ⟨b2, _ | ⟨b3, t⟩⟩⟩
  · simp only [utf8Head, a1, if_false]
    split_ifs <;> rfl
  · simp only [List.length_cons, List.length_nil] at ht
    have b1' : 0xE0 ≤ b0 := by
      split_ifs at ht <;> omega
    have a2 : ¬ (0xC2 ≤ b0 ∧ b0 ≤ 0xDF) := by omega
    simp only [utf8Head, a1, a2, if_false]
    split_ifs <;> rfl
  · simp only [List.length_cons, List.length_nil] at ht
    have b1' : 0xF0 ≤ b0 := by
      split_ifs at ht <;> omega
    have a2 : ¬ (0xC2 ≤ b0 ∧ b0 ≤ 0xDF) := by omega
    have a3 : ¬ (0xE0 ≤ b0 ∧ b0 ≤ 0xEF) := by omega
    simp only [utf8Head, a1, a2, a3, if_false]
    split_ifs <;> rfl
  · simp only [List.length_cons] at ht
    have b1' : 0xF8 ≤ b0 := by
      split_ifs at ht <;> omega
    exact utf8Head_bad b0 _ (Or.inr (by omega))

theorem utf8Head_eq_two (b0 : Nat) (t : List Nat) (h0 : 0xC0 ≤ b0) (h1 : b0 < 0xE0) :
    utf8Head (b0 :: t) =
      match takeEscaped 1 t with
      | none => none
      | some octs =>
        match utf8DecodeOctets (b0 :: octs) with
        | none => none
        | some v => some (v, 2) := by
  rcases t with _ | ⟨b1, t⟩
  · rw [utf8Head_short b0 [] (by omega) (by simp [leadingOnes]; split_ifs <;> omega)]
    simp [takeEscaped]
  · by_cases hA : 0xC2 ≤ b0 ∧ 0x80 ≤ b1 ∧ b1 ≤ 0xBF
    · have hu := not_unescaped_of_ge b1 hA.2.1
      have hB : b1 / 64 = 2 ∧ 0x80 ≤ b0 % 32 * 64 + b1 % 64 := by omega
      rw [utf8Head_two_cons b0 b1 t hA.1 h1]
      simp only [takeEscaped, hu, hA.2, and_self, if_true]
      simp only [Bool.false_eq_true, if_false]
      rw [utf8DecodeOctets_two, if_pos hB]
    · have hL : utf8Head (b0 :: b1 :: t) = none := by
        by_cases h2 : 0xC2 ≤ b0
        · rw [utf8Head_two_cons b0 b1 t h2 h1]
          have : ¬ (0x80 ≤ b1 ∧ b1 ≤ 0xBF) := by omega
          simp only [this, if_false]
        · exact utf8Head_bad b0 _ (Or.inl (by omega))
      rw [hL]
      rcases takeEscaped_cases 1 (b1 :: t) with h | h
      · rw [h]
      · have hB : ¬ (b1 / 64 = 2 ∧ 0x80 ≤ b0 % 32 * 64 + b1 % 64) := by omega
        rw [h]
        simp only [List.take_succ_cons, List.take_zero, utf8DecodeOctets_two, hB, if_false]

theorem utf8Head_eq_three (b0 : Nat) (t : List Nat) (h0 : 0xE0 ≤ b0) (h1 : b0 < 0xF0) :
    utf8Head (b0 :: t) =
      match takeEscaped 2 t with
      | none => none
      | some octs =>
        match utf8DecodeOctets (b0 :: octs) with
        | none => none
        | some v => some (v, 3) := by
  by_cases hs : t.length < 2
  · rw [utf8Head_short b0 t (by omega) (by simp [leadingOnes]; split_ifs <;> omega),
      takeEscaped_short 2 t hs]
  · obtain ⟨b1, b2, t, rfl⟩ : ∃ b1 b2 t', t = b1 :: b2 :: t' := by
      rcases t with _ | ⟨b1, _ | ⟨b2, t⟩⟩
      · simp at hs
      · simp at hs
      · exact ⟨b1, b2, t, rfl⟩
    rw [utf8Head_three_cons b0 b1 b2 t h0 h1]
    by_cases hA : (if b0 = 0xE0 then 0xA0 else 0x80) ≤ b1 ∧
        b1 ≤ (if b0 = 0xED then 0x9F else 0xBF) ∧ 0x80 ≤ b2 ∧ b2 ≤ 0xBF
    · have hb1 : 0x80 ≤ b1 := by
        have := hA.1
        split_ifs at this <;> omega
      have hb1' : b1 ≤ 0xBF := by
        have := hA.2.1
        split_ifs at this <;> omega
      have hu1 := not_unescaped_of_ge b1 hb1
      have hu2 := not_unescaped_of_ge b2 hA.2.2.1
      have hB : b1 / 64 = 2 ∧ b2 / 64 = 2 ∧ 0x800 ≤ b0 % 16 * 4096 + b1 % 64 * 64 + b2 % 64 ∧
          ¬(0xD800 ≤ b0 % 16 * 4096 + b1 % 64 * 64 + b2 % 64 ∧
            b0 % 16 * 4096 + b1 % 64 * 64 + b2 % 64 ≤ 0xDFFF) := by
        obtain ⟨c1, c2, c3, c4⟩ := hA
        split_ifs at c1 c2 <;> omega
      rw [if_pos hA]
      simp only [takeEscaped, hu1, hu2]
      simp only [Bool.false_eq_true, if_false]
      rw [utf8DecodeOctets_three, if_pos hB]
    · rw [if_neg hA]
      rcases takeEscaped_cases 2 (b1 :: b2 :: t) with h | h
      · rw [h]
      · have hB : ¬ (b1 / 64 = 2 ∧ b2 / 64 = 2 ∧
            0x800 ≤ b0 % 16 * 4096 + b1 % 64 * 64 + b2 % 64 ∧
            ¬(0xD800 ≤ b0 % 16 * 4096 + b1 % 64 * 64 + b2 % 64 ∧
              b0 % 16 * 4096 + b1 % 64 * 64 + b2 % 64 ≤ 0xDFFF)) := by
          intro hB
          apply hA
          split_ifs <;> omega
        rw [h]
        simp only [List.take_succ_cons, List.take_zero, utf8DecodeOctets_three, if_neg hB]

theorem utf8Head_eq_four (b0 : Nat) (t : List Nat) (h0 : 0xF0 ≤ b0) (h1 : b0 < 0xF8) :
    utf8Head (b0 :: t) =
      match takeEscaped 3 t with
      | none => none
      | some octs =>
        match utf8DecodeOctets (b0 :: octs) with
        | none => none
        | some v => some (v, 4) := by
  by_cases hs : t.length < 3
  · rw [utf8Head_short b0 t (by omega) (by simp [leadingOnes]; split_ifs <;> omega),
      takeEscaped_short 3 t hs]
  · obtain ⟨b1, b2, b3, t, rfl⟩ : ∃ b1 b2 b3 t', t = b1 :: b2 :: b3 :: t' := by
      rcases t with _ | ⟨b1, _ | ⟨b2, _ | ⟨b3, t⟩⟩⟩
      · simp at hs
      · simp at hs
      · simp at hs
      · exact ⟨b1, b2, b3, t, rfl⟩
    by_cases hA : b0 < 0xF5 ∧ (if b0 = 0xF0 then 0x90 else 0x80) ≤ b1 ∧
        b1 ≤ (if b0 = 0xF4 then 0x8F else 0xBF) ∧ 0x80 ≤ b2 ∧ b2 ≤ 0xBF ∧ 0x80 ≤ b3 ∧ b3 ≤ 0xBF
    · rw [utf8Head_four_cons b0 b1 b2 b3 t h0 hA.1]
      have hb1 : 0x80 ≤ b1 := by
        have := hA.2.1
        split_ifs at this <;> omega
      have hu1 := not_unescaped_of_ge b1 hb1
      have hu2 := not_unescaped_of_ge b2 hA.2.2.2.1
      have hu3 := not_unescaped_of_ge b3 hA.2.2.2.2.2.1
      have hB : b1 / 64 = 2 ∧ b2 / 64 = 2 ∧ b3 / 64 = 2 ∧
          0x10000 ≤ b0 % 8 * 262144 + b1 % 64 * 4096 + b2 % 64 * 64 + b3 % 64 ∧
          b0 % 8 * 262144 + b1 % 64 * 4096 + b2 % 64 * 64 + b3 % 64 ≤ 0x10FFFF := by
        obtain ⟨c0, c1, c2, c3, c4, c5, c6⟩ := hA
        split_ifs at c1 c2 <;> omega
      rw [if_pos hA.2]
      simp only [takeEscaped, hu1, hu2, hu3]
      simp only [Bool.false_eq_true, if_false]
      rw [utf8DecodeOctets_four, if_pos hB]
    · have hL : utf8Head (b0 :: b1 :: b2 :: b3 :: t) = none := by
        by_cases h2 : b0 < 0xF5
        · rw [utf8Head_four_cons b0 b1 b2 b3 t h0 h2]
          rw [if_neg (fun hc => hA ⟨h2, hc⟩)]
        · exact utf8Head_bad b0 _ (Or.inr (by omega))
      rw [hL]
      rcases takeEscaped_cases 3 (b1 :: b2 :: b3 :: t) with h | h
      · rw [h]
      · have hB : ¬ (b1 / 64 = 2 ∧ b2 / 64 = 2 ∧ b3 / 64 = 2 ∧
            0x10000 ≤ b0 % 8 * 262144 + b1 % 64 * 4096 + b2 % 64 * 64 + b3 % 64 ∧
            b0 % 8 * 262144 + b1 % 64 * 4096 + b2 % 64 * 64 + b3 % 64 ≤ 0x10FFFF) := by
          intro hB
          apply hA
          refine ⟨by omega, ?_⟩
          split_ifs <;> omega
        rw [h]
        simp only [List.take_succ_cons, List.take_zero, utf8DecodeOctets_four, if_neg hB]

theorem decodeLoop_multi (b0 : Nat) (t : List Nat) (hb : b0 < 256) (ht : ∀ b ∈ t, b < 256)
    (n : Nat) (hn : leadingOnes b0 = n) (h2 : 2 ≤ n) (h4 : n ≤ 4)
    (hH : utf8Head (b0 :: t) =
      match takeEscaped (n - 1) t with
      | none => none
      | some octs =>
        match utf8DecodeOctets (b0 :: octs) with
        | none => none
        | some v => some (v, n)) :
    decodeLoop 0 (37 :: hexDigit (b0 / 16) :: hexDigit (b0 % 16) :: escape t) =
      match utf8Head (b0 :: t) with
      | none => .error .URIError
      | some (v, n) =>
        (decodeLoop 0 (escape (t.drop (n - 1)))).map (utf16EncodeCodePoint v ++ ·) := by
  rw [decodeLoop_pct b0 hb, hn, hH, continuationOctets_escape _ t ht]
  have e1 : ¬ n = 0 := by omega
  have e2 : ¬ (n = 1 ∨ 4 < n) := by omega
  rw [if_neg e1, if_neg e2]
  cases hT : takeEscaped (n - 1) t with
  | none => rfl
  | some octs =>
    simp only
    cases hD : utf8DecodeOctets (b0 :: octs) with
    | none => rfl
    | some v =>
      simp only
      rw [(escape_drop (n - 1) t octs ht hT).1]

/-- One step of `decodeURIComponent` on the text written by `escape`: the first well-formed
UTF-8 sequence of the bytes is decoded, anything else throws. -/
theorem decodeLoop_escape_cons (b0 : Nat) (t : List Nat) (hb : b0 < 256)
    (ht : ∀ b ∈ t, b < 256) :
    decodeLoop 0 (escape (b0 :: t)) =
      match utf8Head (b0 :: t) with
      | none => .error .URIError
      | some (v, n) =>
        (decodeLoop 0 (escape (t.drop (n - 1)))).map (utf16EncodeCodePoint v ++ ·) := by
  rw [escape_cons]
  cases hu : isEscapeUnescaped b0
  · rw [escapeUnit16_escaped b0 hb hu]
    simp only [List.cons_append, List.nil_append]
    by_cases c1 : b0 < 0x80
    · have hl : leadingOnes b0 = 0 := by simp [leadingOnes, c1]
      rw [decodeLoop_pct b0 hb, hl, utf8Head_one b0 t c1]
      have : utf16EncodeCodePoint b0 = [b0] := by
        simp [utf16EncodeCodePoint]; omega
      simp [this]
    by_cases c2 : b0 < 0xC0
    · have hl : leadingOnes b0 = 1 := by simp [leadingOnes, c1, c2]
      rw [decodeLoop_pct b0 hb, hl, utf8Head_bad b0 t (Or.inl (by omega))]
      simp
    by_cases c3 : b0 < 0xE0
    · have hl : leadingOnes b0 = 2 := by simp [leadingOnes, c1, c2, c3]
      exact decodeLoop_multi b0 t hb ht 2 hl (by omega) (by omega)
        (utf8Head_eq_two b0 t (by omega) c3)
    by_cases c4 : b0 < 0xF0
    · have hl : leadingOnes b0 = 3 := by simp [leadingOnes, c1, c2, c3, c4]
      exact decodeLoop_multi b0 t hb ht 3 hl (by omega) (by omega)
        (utf8Head_eq_three b0 t (by omega) c4)
    by_cases c5 : b0 < 0xF8
    · have hl : leadingOnes b0 = 4 := by simp [leadingOnes, c1, c2, c3, c4, c5]
      exact decodeLoop_multi b0 t hb ht 4 hl (by omega) (by omega)
        (utf8Head_eq_four b0 t (by omega) c5)
    · have hl : 4 < leadingOnes b0 := by
        unfold leadingOnes
        split_ifs <;> omega
      have hl0 : ¬ leadingOnes b0 = 0 := by omega
      rw [decodeLoop_pct b0 hb, if_neg hl0, if_pos (Or.inr hl),
        utf8Head_bad b0 t (Or.inr (by omega))]
  · have h := isEscapeUnescaped_lt b0 hu
    rw [escapeUnit16_unescaped b0 hu, utf8Head_one b0 t h.1]
    have : utf16EncodeCodePoint b0 = [b0] := by
      simp [utf16EncodeCodePoint]; omega
    simp [decodeLoop, h.2, this]

/-- The function `decodeURIComponent` after `escape` is UTF-8 decoding: on a list of bytes
it returns the UTF-16 text of the code points when the bytes are well-formed UTF-8, and
throws otherwise. -/
theorem decode_escape (bs : List Nat) (hbs : ∀ b ∈ bs, b < 256) :
    decodeLoop 0 (escape bs) =
      match utf8DecodeLoop 0 bs with
      | some cps => .ok (cps.flatMap utf16EncodeCodePoint)
      | none => .error .URIError := by
  generalize hlen : bs.length = k
  induction k using Nat.strong_induction_on generalizing bs with
  | _ k ih =>
    cases bs with
    | nil => rfl
    | cons b0 t =>
      have hb : b0 < 256 := hbs b0 (by simp)
      have ht : ∀ b ∈ t, b < 256 := fun x hx => hbs x (by simp [hx])
      rw [decodeLoop_escape_cons b0 t hb ht]
      simp only [utf8DecodeLoop]
      cases hH : utf8Head (b0 :: t) with
      | none => rfl
      | some p =>
        obtain ⟨v, n⟩ := p
        simp only
        rw [utf8DecodeLoop_drop (n - 1) t]
        have hd : ∀ b ∈ t.drop (n - 1), b < 256 := fun x hx => ht x (List.mem_of_mem_drop hx)
        have hl : (t.drop (n - 1)).length < k := by
          rw [← hlen]; simp only [List.length_drop, List.length_cons]; omega
        rw [ih _ hl _ hd rfl]
        cases utf8DecodeLoop 0 (t.drop (n - 1)) with
        | none => rfl
        | some cps => simp [Except.map, List.flatMap_cons]

/-! ## Lemmas: UTF-8 decoding of an encoded text -/

theorem utf8DecodeLoop_encode (cp : Nat) (bs : List Nat) (h : cp < 0x110000)
    (hs : ¬ (0xD800 ≤ cp ∧ cp ≤ 0xDFFF)) :
    utf8DecodeLoop 0 (utf8Encode cp ++ bs) = (utf8DecodeLoop 0 bs).map (cp :: ·) := by
  unfold utf8Encode
  by_cases c1 : cp < 0x80
  · simp only [c1, if_true, List.cons_append, List.nil_append, utf8DecodeLoop,
      utf8Head_one cp bs c1]
  by_cases c2 : cp < 0x800
  · simp only [c1, c2, if_true, if_false, List.cons_append, List.nil_append, utf8DecodeLoop]
    rw [utf8Head_two_cons _ _ _ (by omega) (by omega)]
    have hA : 0x80 ≤ 0x80 + cp % 64 ∧ 0x80 + cp % 64 ≤ 0xBF := by omega
    have hv : (0xC0 + cp / 64) % 32 * 64 + (0x80 + cp % 64) % 64 = cp := by omega
    rw [if_pos hA, hv]
    simp only [Nat.add_one_sub_one, utf8DecodeLoop]
  by_cases c3 : cp < 0x10000
  · simp only [c1, c2, c3, if_true, if_false, List.cons_append, List.nil_append, utf8DecodeLoop]
    rw [utf8Head_three_cons _ _ _ _ (by omega) (by omega)]
    have hA : (if 0xE0 + cp / 4096 = 0xE0 then 0xA0 else 0x80) ≤ 0x80 + cp / 64 % 64 ∧
        0x80 + cp / 64 % 64 ≤ (if 0xE0 + cp / 4096 = 0xED then 0x9F else 0xBF) ∧
        0x80 ≤ 0x80 + cp % 64 ∧ 0x80 + cp % 64 ≤ 0xBF := by
      split_ifs <;> omega
    have hv : (0xE0 + cp / 4096) % 16 * 4096 + (0x80 + cp / 64 % 64) % 64 * 64 +
        (0x80 + cp % 64) % 64 = cp := by omega
    rw [if_pos hA, hv]
    simp only [Nat.add_one_sub_one, utf8DecodeLoop]
  · simp only [c1, c2, c3, if_false, List.cons_append, List.nil_append, utf8DecodeLoop]
    rw [utf8Head_four_cons _ _ _ _ _ (by omega) (by omega)]
    have hA : (if 0xF0 + cp / 262144 = 0xF0 then 0x90 else 0x80) ≤ 0x80 + cp / 4096 % 64 ∧
        0x80 + cp / 4096 % 64 ≤ (if 0xF0 + cp / 262144 = 0xF4 then 0x8F else 0xBF) ∧
        0x80 ≤ 0x80 + cp / 64 % 64 ∧ 0x80 + cp / 64 % 64 ≤ 0xBF ∧
        0x80 ≤ 0x80 + cp % 64 ∧ 0x80 + cp % 64 ≤ 0xBF := by
      split_ifs <;> omega
    have hv : (0xF0 + cp / 262144) % 8 * 262144 + (0x80 + cp / 4096 % 64) % 64 * 4096 +
        (0x80 + cp / 64 % 64) % 64 * 64 + (0x80 + cp % 64) % 64 = cp := by omega
    rw [if_pos hA, hv]
    simp only [Nat.add_one_sub_one, utf8DecodeLoop]

theorem utf16Encode_pair (c d : Nat) (hl : isLeadSurrogate c = true)
    (ht : isTrailSurrogate d = true) :
    utf16EncodeCodePoint (surrogatePairToCodePoint c d) = [c, d] := by
  simp only [isLeadSurrogate, isTrailSurrogate, Bool.and_eq_true, decide_eq_true_eq] at hl ht
  unfold utf16EncodeCodePoint surrogatePairToCodePoint
  have h1 : ¬ ((c - 0xD800) * 0x400 + (d - 0xDC00) + 0x10000 ≤ 0xFFFF) := by omega
  rw [if_neg h1]
  congr 1
  · omega
  · congr 1
    omega

theorem utf8Bytes_lt (x : JSString) (hx : IsJSString x) (hw : isWellFormedUTF16 x = true) :
    ∀ b ∈ utf8Bytes x, b < 256 := by
  induction x using isWellFormedUTF16.induct with
  | case1 => simp [utf8Bytes]
  | case2 c =>
    have hc : c < 65536 := hx c (by simp)
    simpa [utf8Bytes] using utf8Encode_lt c (by omega)
  | case3 c d rest hl ih =>
    simp [isWellFormedUTF16, hl] at hw
    intro b hb
    simp only [utf8Bytes, hl, if_true, List.mem_append] at hb
    rcases hb with hb | hb
    · exact utf8Encode_lt _ (surrogatePair_lt c d hl hw.1).2 b hb
    · exact ih (fun a ha => hx a (by simp [ha])) hw.2 b hb
  | case4 c d rest hl ih =>
    have hl2 : isLeadSurrogate c = false := by simpa using hl
    simp [isWellFormedUTF16, hl2] at hw
    have hc : c < 65536 := hx c (by simp)
    intro b hb
    simp only [utf8Bytes, hl2, Bool.false_eq_true, if_false, List.mem_append] at hb
    rcases hb with hb | hb
    · exact utf8Encode_lt _ (by omega) b hb
    · exact ih (fun a ha => hx a (by simp [ha])) hw.2 b hb

theorem not_surrogate_of (c : Nat) (hl : isLeadSurrogate c = false)
    (ht : isTrailSurrogate c = false) : ¬ (0xD800 ≤ c ∧ c ≤ 0xDFFF) := by
  simp [isLeadSurrogate, isTrailSurrogate] at hl ht
  omega

/-- The UTF-8 bytes of a well-formed text decode to code points whose UTF-16 form is the
text. -/
theorem utf8Decode_utf8Bytes (x : JSString) (hx : IsJSString x)
    (hw : isWellFormedUTF16 x = true) :
    ∃ cps, utf8DecodeLoop 0 (utf8Bytes x) = some cps ∧
      cps.flatMap utf16EncodeCodePoint = x := by
  induction x using isWellFormedUTF16.induct with
  | case1 => exact ⟨[], rfl, rfl⟩
  | case2 c =>
    simp [isWellFormedUTF16] at hw
    have hc : c < 65536 := hx c (by simp)
    refine ⟨[c], ?_, ?_⟩
    · have := utf8DecodeLoop_encode c [] (by omega) (not_surrogate_of c hw.1 hw.2)
      simpa [utf8Bytes, utf8DecodeLoop] using this
    · simp [utf16EncodeCodePoint]; omega
  | case3 c d rest hl ih =>
    simp [isWellFormedUTF16, hl] at hw
    obtain ⟨cps, h1, h2⟩ := ih (fun a ha => hx a (by simp [ha])) hw.2
    have hp := surrogatePair_lt c d hl hw.1
    refine ⟨surrogatePairToCodePoint c d :: cps, ?_, ?_⟩
    · simp only [utf8Bytes, hl, if_true]
      rw [utf8DecodeLoop_encode _ _ hp.2 (by omega), h1]
      rfl
    · rw [List.flatMap_cons, utf16Encode_pair c d hl hw.1, h2]
      rfl
  | case4 c d rest hl ih =>
    have hl2 : isLeadSurrogate c = false := by simpa using hl
    simp [isWellFormedUTF16, hl2] at hw
    have hc : c < 65536 := hx c (by simp)
    obtain ⟨cps, h1, h2⟩ := ih (fun a ha => hx a (by simp [ha])) hw.2
    refine ⟨c :: cps, ?_, ?_⟩
    · simp only [utf8Bytes, hl2, Bool.false_eq_true, if_false]
      rw [utf8DecodeLoop_encode _ _ (by omega) (not_surrogate_of c hl2 hw.1), h1]
      rfl
    · rw [List.flatMap_cons, h2]
      have : utf16EncodeCodePoint c = [c] := by
        simp [utf16EncodeCodePoint]; omega
      rw [this]
      rfl

/-! ## The codec -/

theorem base64Encode_wellFormed (x : JSString) (hx : IsJSString x)
    (hw : isWellFormedUTF16 x = true) :
    base64Encode x = .ok (b64EncodeBytes (utf8Bytes x)) := by
  obtain ⟨e, he, hu⟩ := encode_unescape x hx hw
  have hlt := utf8Bytes_lt x hx hw
  have hall : (utf8Bytes x).all (· < 256) = true := by
    rw [List.all_eq_true]
    intro b hb
    simpa using hlt b hb
  simp only [base64Encode, encodeURIComponent, he, unescape, hu, btoa, hall, if_true]

theorem base64Decode_b64EncodeBytes (x : JSString) (hx : IsJSString x)
    (hw : isWellFormedUTF16 x = true) :
    base64Decode (b64EncodeBytes (utf8Bytes x)) = x := by
  have hlt := utf8Bytes_lt x hx hw
  obtain ⟨cps, h1, h2⟩ := utf8Decode_utf8Bytes x hx hw
  simp only [base64Decode, atob_b64EncodeBytes _ hlt, decodeURIComponent,
    decode_escape _ hlt, h1, h2]

/-! ## Lemmas: the bytes `atob` returns -/

theorem b64Val_lt (c v : Nat) (h : b64Val c = some v) : v < 64 := by
  unfold b64Val at h
  split_ifs at h <;> simp at h <;> omega

theorem b64Vals_lt (d : JSString) (vs : List Nat) (h : b64Vals d = some vs) :
    ∀ v ∈ vs, v < 64 := by
  induction d generalizing vs with
  | nil => simp [b64Vals] at h; subst h; simp
  | cons c rest ih =>
    simp only [b64Vals] at h
    cases hc : b64Val c with
    | none => simp [hc] at h
    | some v =>
      cases hr : b64Vals rest with
      | none => simp [hc, hr] at h
      | some ws =>
        simp [hc, hr] at h
        subst h
        intro x hx
        rcases List.mem_cons.mp hx with rfl | hx
        · exact b64Val_lt c _ hc
        · exact ih ws hr x hx

theorem b64DecodeVals_lt (vs : List Nat) (h : ∀ v ∈ vs, v < 64) :
    ∀ x ∈ b64DecodeVals vs, x < 256 := by
  induction vs using b64DecodeVals.induct with
  | case1 a b c d rest ih =>
    have ha := h a (by simp)
    have hb := h b (by simp)
    have hc := h c (by simp)
    have hd := h d (by simp)
    intro x hx
    simp only [b64DecodeVals, List.mem_cons] at hx
    rcases hx with rfl | rfl | rfl | hx
    · omega
    · omega
    · omega
    · exact ih (fun v hv => h v (by simp [hv])) x hx
  | case2 a b c =>
    have ha := h a (by simp)
    have hb := h b (by simp)
    have hc := h c (by simp)
    intro x hx
    simp only [b64DecodeVals, List.mem_cons, List.mem_singleton, List.not_mem_nil, or_false] at hx
    rcases hx with rfl | rfl <;> omega
  | case3 a b =>
    have ha := h a (by simp)
    have hb := h b (by simp)
    intro x hx
    simp only [b64DecodeVals, List.mem_singleton] at hx
    subst hx
    omega
  | case4 vs h1 h2 h3 =>
    intro x hx
    rw [b64DecodeVals] at hx
    · simp at hx
    · exact h1
    · exact h2
    · exact h3

theorem atob_lt (s b : JSString) (h : atob s = .ok b) : ∀ x ∈ b, x < 256 := by
  unfold atob at h
  simp only at h
  split_ifs at h
  all_goals
    split at h
    · simp at h
    · rename_i vs hvs
      simp only [Except.ok.injEq] at h
      subst h
      exact b64DecodeVals_lt vs (b64Vals_lt _ vs hvs)

theorem b64Char_alphabet (n : Nat) : isBase64Alphabet (b64Char n) = true := by
  unfold b64Char isBase64Alphabet
  split_ifs <;> simp <;> omega

theorem b64EncodeBytes_chars (bs : List Nat) :
    ∀ c ∈ b64EncodeBytes bs, isBase64Alphabet c = true ∨ c = 61 := by
  induction bs using b64EncodeUnpadded.induct with
  | case1 => simp [b64EncodeBytes]
  | case2 a => simp [b64EncodeBytes, b64Char_alphabet]
  | case3 a b => simp [b64EncodeBytes, b64Char_alphabet]
  | case4 a b c rest ih =>
    intro x hx
    simp only [b64EncodeBytes, List.mem_cons] at hx
    rcases hx with rfl | rfl | rfl | rfl | hx
    · exact Or.inl (b64Char_alphabet _)
    · exact Or.inl (b64Char_alphabet _)
    · exact Or.inl (b64Char_alphabet _)
    · exact Or.inl (b64Char_alphabet _)
    · exact ih x hx

/-- What `base64Decode` returns: the text of the code points when the locator is base64 of
well-formed UTF-8, the empty text otherwise. -/
theorem base64Decode_eq (s : JSString) :
    base64Decode s =
      match atob s with
      | .error _ => []
      | .ok b =>
        match utf8Decode b with
        | none => []
        | some cps => cps.flatMap utf16EncodeCodePoint := by
  unfold base64Decode
  cases h : atob s with
  | error e => rfl
  | ok b =>
    simp only [decodeURIComponent, decode_escape b (atob_lt s b h), utf8Decode]
    cases utf8DecodeLoop 0 b <;> rfl

/-! ## Lemmas: `trim` -/

theorem trim_of_all_whitespace (s : JSString) (h : ∀ c ∈ s, isJSWhiteSpace c = true) :
    trim s = [] := by
  have h1 : trimStart s = [] := by
    unfold trimStart
    exact List.dropWhile_eq_nil_iff.mpr h
  simp [trim, h1, trimEnd]

/-! ## Lemmas: rendering -/

theorem tablesOf_append (a b : List Node) : tablesOf (a ++ b) = tablesOf a ++ tablesOf b := by
  induction a with
  | nil => rfl
  | cons n rest ih =>
    cases n <;> simp [tablesOf, ih]

theorem tablesOf_renderTables {N : Type} (numberToString : N → JSString) (multi : Bool)
    (idx : Nat) (rs : List (ResultSet N)) :
    tablesOf (renderTables numberToString multi idx rs) =
      rs.map fun r => (r.columns, r.values.map fun row => row.map (escapeHtml numberToString)) := by
  induction rs generalizing idx with
  | nil => rfl
  | cons r rest ih =>
    cases multi <;> simp [renderTables, renderTable, tablesOf, ih]

theorem tablesOf_renderResults {N : Type} (numberToString : N → JSString)
    (rs : List (ResultSet N)) (infoMessage : JSString) :
    tablesOf (renderResults numberToString (some rs) infoMessage) =
      rs.map fun r => (r.columns, r.values.map fun row => row.map (escapeHtml numberToString)) := by
  cases rs with
  | nil =>
    by_cases hi : infoMessage = [] <;> simp [renderResults, hi, tablesOf, noRowsMessage, okMessage]
  | cons r rest =>
    simp only [renderResults]
    rw [tablesOf_append, tablesOf_renderTables]
    by_cases hi : infoMessage = [] <;> simp [hi, tablesOf, okMessage]

theorem bodyCell_renderResults {N : Type} (numberToString : N → JSString)
    (rs : List (ResultSet N)) (infoMessage : JSString) (k i j : Nat) :
    bodyCell (renderResults numberToString (some rs) infoMessage) k i j =
      (cellValue rs k i j).map (escapeHtml numberToString) := by
  unfold bodyCell cellValue
  rw [tablesOf_renderResults]
  simp only [List.getElem?_map]
  cases rs[k]? with
  | none => rfl
  | some r =>
    simp only [Option.map_some', List.getElem?_map]
    cases r.values[i]? with
    | none => rfl
    | some row =>
      simp only [Option.map_some', List.getElem?_map]

theorem okMessage_ne_noRows (payload : JSString) : okMessage payload ≠ noRowsMessage := by
  intro h
  simp only [okMessage, noRowsMessage, Node.markup.injEq] at h
  have h2 := congrArg (fun l => l[19]?) h
  have e1 : lit "<div class=\"message ok\">" =
      [60, 100, 105, 118, 32, 99, 108, 97, 115, 115, 61, 34, 109, 101, 115, 115, 97, 103, 101,
        32, 111, 107, 34, 62] := by decide
  rw [e1] at h2
  revert h2
  simp only [List.cons_append, List.getElem?_cons_succ, List.getElem?_cons_zero]
  decide

theorem renderTables_no_markup {N : Type} (numberToString : N → JSString) (multi : Bool)
    (idx : Nat) (rs : List (ResultSet N)) :
    ∀ n ∈ renderTables numberToString multi idx rs, ∀ html, n ≠ Node.markup html := by
  induction rs generalizing idx with
  | nil => simp [renderTables]
  | cons r rest ih =>
    intro n hn html
    cases multi
    · simp only [renderTables, Bool.false_eq_true, if_false, List.nil_append,
        List.mem_cons] at hn
      rcases hn with rfl | hn
      · simp [renderTable]
      · exact ih _ n hn html
    · simp only [renderTables, if_true, List.cons_append, List.nil_append,
        List.mem_cons] at hn
      rcases hn with rfl | rfl | hn
      · simp
      · simp [renderTable]
      · exact ih _ n hn html

/-! ## Lemmas: the editor -/

theorem normalizeNewlines_ne_nil (s : JSString) (h : s ≠ []) : normalizeNewlines s ≠ [] := by
  match s with
  | [] => exact absurd rfl h
  | [c] =>
    simp only [normalizeNewlines]
    split_ifs <;> simp
  | c :: d :: rest =>
    simp only [normalizeNewlines]
    split_ifs <;> simp

theorem normalizeNewlines_of_no_cr : ∀ (s : JSString), 13 ∉ s → normalizeNewlines s = s
  | [], _ => rfl
  | [c], h => by
    have hc : c ≠ 13 := fun e => h (by simp [e])
    simp [normalizeNewlines, hc]
  | c :: d :: rest, h => by
    have hc : c ≠ 13 := fun e => h (by simp [e])
    have hr : 13 ∉ d :: rest := fun e => h (List.mem_cons_of_mem _ e)
    have ih := normalizeNewlines_of_no_cr (d :: rest) hr
    simp [normalizeNewlines, hc, ih]

theorem base64Decode_of_malformed (s : JSString) (h : isMalformedLocator s = true) :
    base64Decode s = [] := by
  rw [base64Decode_eq]
  unfold isMalformedLocator at h
  cases ha : atob s with
  | error e => rfl
  | ok b =>
    simp only [ha, isValidUtf8, Bool.not_eq_true'] at h
    cases hd : utf8Decode b with
    | none => simp only [hd]
    | some cps => simp [hd] at h

/-! ## The claims -/

/-- C2: for every value `v` (and every conversion of numbers to strings), the text
`escapeHtml(v)` contains none of the characters `<`, `>`, `"` and apostrophe, and every `&`
in it starts one of the five entities `&amp;` `&lt;` `&gt;` `&quot;` `&#039;`. -/
theorem escapeHtml_neutralizes {N : Type} (numberToString : N → JSString) (v : JSValue N) :
    (60 ∉ escapeHtml numberToString v ∧ 62 ∉ escapeHtml numberToString v ∧
      34 ∉ escapeHtml numberToString v ∧ 39 ∉ escapeHtml numberToString v) ∧
    ∀ i, (escapeHtml numberToString v)[i]? = some 38 →
      ∃ e ∈ entities, e <+: (escapeHtml numberToString v).drop i := by
  refine ⟨⟨?_, ?_, ?_, ?_⟩, fun i h => escapeHtmlText_amp _ i h⟩ <;>
  · intro hmem
    have := escapeHtmlText_no_markup _ _ hmem
    simp [isMarkupChar] at this

/-- C6: for every table name `n`, `escapeIdentifier(n)` is exactly the code units of `n` in
`[A-Za-z0-9_]`, in their original order: every code unit of the result is in that set, none
of that set is dropped, and a name made only of such code units is returned unchanged. -/
theorem escapeIdentifier_spec (n : JSString) :
    escapeIdentifier n = n.filter isIdentChar ∧
    (∀ c ∈ escapeIdentifier n, isIdentChar c = true) ∧
    List.Sublist (escapeIdentifier n) n ∧
    (∀ c, isIdentChar c = true → (escapeIdentifier n).count c = n.count c) ∧
    ((∀ c ∈ n, isIdentChar c = true) → escapeIdentifier n = n) := by
  rw [escapeIdentifier_eq_filter]
  refine ⟨rfl, ?_, List.filter_sublist n, ?_, ?_⟩
  · intro c hc
    exact (List.mem_filter.mp hc).2
  · intro c hc
    rw [List.count_filter hc]
  · intro h
    exact List.filter_eq_self.mpr h

/-- C1 (as amended): for every query text `x` that is well-formed UTF-16 (no unpaired
surrogate code unit), `base64Encode(x)` returns a locator and `base64Decode` of that
locator equals `x`. -/
theorem base64_roundtrip (x : JSString) (hx : IsJSString x)
    (hw : isWellFormedUTF16 x = true) :
    ∃ s, base64Encode x = .ok s ∧ base64Decode s = x :=
  ⟨b64EncodeBytes (utf8Bytes x), base64Encode_wellFormed x hx hw,
    base64Decode_b64EncodeBytes x hx hw⟩

/-- C1, witness: the text made of U+00E9, an apostrophe, a semicolon, a line feed, a space
and U+1F600 (a surrogate pair). -/
theorem base64_roundtrip_witness :
    ∃ s, base64Encode [233, 39, 59, 10, 32, 0xD83D, 0xDE00] = .ok s ∧
      base64Decode s = [233, 39, 59, 10, 32, 0xD83D, 0xDE00] :=
  base64_roundtrip [233, 39, 59, 10, 32, 0xD83D, 0xDE00] (by decide) (by decide)

/-- C1, counterexample: on the one-unit text made of the unpaired surrogate U+D800,
`base64Encode` throws a `URIError`, so no locator is produced and nothing decodes back to
the text. -/
theorem base64_roundtrip_fails_on_lone_surrogate :
    IsJSString [0xD800] ∧ base64Encode [0xD800] = .error .URIError ∧
      ¬ ∃ s, base64Encode [0xD800] = .ok s ∧ base64Decode s = [0xD800] := by
  refine ⟨by decide, by decide, ?_⟩
  rintro ⟨s, hs, -⟩
  have h : base64Encode [0xD800] = .error .URIError := by decide
  rw [h] at hs
  cases hs

/-- C3 (as amended): for every batch, a body cell whose value is `null` is rendered by
`renderResults` (through `escapeHtml`) as the text `null`. -/
theorem renderResults_null_cell {N : Type} (numberToString : N → JSString)
    (results : List (ResultSet N)) (infoMessage : JSString) (k i j : Nat)
    (h : cellValue results k i j = some .null) :
    bodyCell (renderResults numberToString (some results) infoMessage) k i j =
      some [110, 117, 108, 108] := by
  rw [bodyCell_renderResults, h]
  rfl

/-- C3, witness: one result set with one column and the single cell `null`. -/
theorem renderResults_null_cell_witness :
    bodyCell (renderResults natToString (some [⟨[[97]], [[JSValue.null]]⟩]) []) 0 0 0 =
      some [110, 117, 108, 108] :=
  renderResults_null_cell natToString [⟨[[97]], [[JSValue.null]]⟩] [] 0 0 0 rfl

/-- C3, counterexample: the single cell `null` of a one-column result set is rendered as
the four letters `null`, which is not the empty text. -/
theorem renderResults_null_cell_not_empty :
    cellValue [(⟨[[97]], [[JSValue.null]]⟩ : ResultSet Nat)] 0 0 0 = some .null ∧
      bodyCell (renderResults natToString (some [⟨[[97]], [[JSValue.null]]⟩]) []) 0 0 0 =
        some (lit "null") ∧
      bodyCell (renderResults natToString (some [⟨[[97]], [[JSValue.null]]⟩]) []) 0 0 0 ≠
        some [] := by
  decide

/-- C4: `base64Decode` is a total function from locators to texts, and on a malformed
locator (one that is not base64, or the base64 of bytes that are not well-formed UTF-8) it
returns the empty text. -/
theorem base64Decode_malformed (s : JSString) (h : isMalformedLocator s = true) :
    base64Decode s = [] :=
  base64Decode_of_malformed s h

/-- C4, witness: `!` is not base64, `Y` has the length of no base64 text, and `/w==` is the
base64 of the byte `0xFF`. -/
theorem base64Decode_malformed_witness :
    base64Decode [33] = [] ∧ base64Decode [89] = [] ∧ base64Decode [47, 119, 61, 61] = [] :=
  ⟨base64Decode_malformed [33] (by decide), base64Decode_malformed [89] (by decide),
    base64Decode_malformed [47, 119, 61, 61] (by decide)⟩

/-- C5 (as amended): for every well-formed query text `x`, `base64Encode(x)` returns a text
made only of the characters of the base64 alphabet `A-Z a-z 0-9 + /` and of the padding
character `=`, and its length is a multiple of four. -/
theorem base64Encode_chars (x : JSString) (hx : IsJSString x)
    (hw : isWellFormedUTF16 x = true) :
    ∃ s, base64Encode x = .ok s ∧ (∀ c ∈ s, isBase64Alphabet c = true ∨ c = 61) ∧
      s.length % 4 = 0 :=
  ⟨b64EncodeBytes (utf8Bytes x), base64Encode_wellFormed x hx hw,
    b64EncodeBytes_chars _, b64EncodeBytes_length _⟩

/-- C5, witness: the text `aa>`. -/
theorem base64Encode_chars_witness :
    ∃ s, base64Encode [97, 97, 62] = .ok s ∧ (∀ c ∈ s, isBase64Alphabet c = true ∨ c = 61) ∧
      s.length % 4 = 0 :=
  base64Encode_chars [97, 97, 62] (by decide) (by decide)

/-- C5, counterexample: `base64Encode` of `a` is `YQ==`, of `aa>` is `YWE+` and of `aa?` is
`YWE/`: the results contain `=`, `+` and `/`. -/
theorem base64Encode_not_url_safe :
    base64Encode [97] = .ok [89, 81, 61, 61] ∧ 61 ∈ [89, 81, 61, 61] ∧
      base64Encode [97, 97, 62] = .ok [89, 87, 69, 43] ∧ 43 ∈ [89, 87, 69, 43] ∧
      base64Encode [97, 97, 63] = .ok [89, 87, 69, 47] ∧ 47 ∈ [89, 87, 69, 47] := by
  decide

/-- C7: when the editor text is empty or made only of whitespace, `handleRunQuery` shows the
neutral message "Type a SQL statement to run." and nothing else, makes no call to the
engine, and leaves the database and the editor text as they were. -/
theorem handleRunQuery_blank {DB N : Type} (engine : Engine DB N)
    (numberToString : N → JSString) (st : App DB)
    (h : ∀ c ∈ st.editor, isJSWhiteSpace c = true) :
    (handleRunQuery engine numberToString st).results = [typeSqlMessage] ∧
      (handleRunQuery engine numberToString st).execCalls = st.execCalls ∧
      (handleRunQuery engine numberToString st).database = st.database ∧
      (handleRunQuery engine numberToString st).editor = st.editor := by
  simp [handleRunQuery, trim_of_all_whitespace st.editor h]

/-- C7, witness: the editor holds a space, a tab and a line feed; the engine would return
one empty result set and count the call. -/
theorem handleRunQuery_blank_witness :
    (handleRunQuery (⟨fun db _ => (db + 1, .ok [])⟩ : Engine Nat Nat) natToString
        ⟨[32, 9, 10], [], 0, [], none⟩).results = [typeSqlMessage] ∧
      (handleRunQuery (⟨fun db _ => (db + 1, .ok [])⟩ : Engine Nat Nat) natToString
        ⟨[32, 9, 10], [], 0, [], none⟩).execCalls = [] ∧
      (handleRunQuery (⟨fun db _ => (db + 1, .ok [])⟩ : Engine Nat Nat) natToString
        ⟨[32, 9, 10], [], 0, [], none⟩).database = 0 ∧
      (handleRunQuery (⟨fun db _ => (db + 1, .ok [])⟩ : Engine Nat Nat) natToString
        ⟨[32, 9, 10], [], 0, [], none⟩).editor = [32, 9, 10] :=
  handleRunQuery_blank _ natToString ⟨[32, 9, 10], [], 0, [], none⟩ (by decide)

/-- C8: `renderResults` puts the success message carrying the neutralized `infoMessage`
first exactly when `infoMessage` is present (a non-empty text; an omitted argument is the
empty text), whatever the batch is, and no other node is then a message; it shows the
neutral message "Statement executed. No rows returned." exactly when the batch is empty and
no `infoMessage` was given; an empty batch with an `infoMessage` gets the success message
alone. -/
theorem renderResults_messages {N : Type} (numberToString : N → JSString)
    (execResults : Option (List (ResultSet N))) (infoMessage : JSString) :
    (infoMessage ≠ [] →
      ∃ rest, renderResults numberToString execResults infoMessage =
          okMessage (escapeHtml numberToString (.string infoMessage)) :: rest ∧
        ∀ n ∈ rest, ∀ html, n ≠ Node.markup html) ∧
    (infoMessage = [] →
      ∀ n ∈ renderResults numberToString execResults infoMessage, ∀ payload,
        n ≠ okMessage payload) ∧
    (noRowsMessage ∈ renderResults numberToString execResults infoMessage ↔
      (execResults = none ∨ execResults = some []) ∧ infoMessage = []) ∧
    ((execResults = none ∨ execResults = some []) → infoMessage ≠ [] →
      renderResults numberToString execResults infoMessage =
        [okMessage (escapeHtml numberToString (.string infoMessage))]) := by
  have hne : ∀ payload, noRowsMessage ≠ okMessage payload :=
    fun p h => okMessage_ne_noRows p h.symm
  rcases execResults with _ | _ | ⟨r, rs⟩
  · by_cases hi : infoMessage = []
    · subst hi
      simp [renderResults, hne]
    · simp [renderResults, hi, hne]
  · by_cases hi : infoMessage = []
    · subst hi
      simp [renderResults, hne]
    · simp [renderResults, hi, hne]
  · have hT := renderTables_no_markup numberToString (decide (1 < (r :: rs).length)) 0 (r :: rs)
    by_cases hi : infoMessage = []
    · subst hi
      refine ⟨fun h => absurd rfl h, ?_, ?_, ?_⟩
      · intro _ n hn payload heq
        simp only [renderResults, ne_eq, not_true_eq_false, if_false, List.nil_append] at hn
        exact hT n hn _ (by rw [heq]; rfl)
      · constructor
        · intro hn
          simp only [renderResults, ne_eq, not_true_eq_false, if_false, List.nil_append] at hn
          exact absurd rfl (hT _ hn _)
        · rintro ⟨h | h, -⟩ <;> cases h
      · rintro (h | h) <;> cases h
    · refine ⟨fun _ => ⟨_, by simp [renderResults, hi], hT⟩, fun h => absurd h hi, ?_, ?_⟩
      · constructor
        · intro hn
          simp only [renderResults, ne_eq, hi, not_false_eq_true, if_true, List.cons_append,
            List.nil_append, List.mem_cons] at hn
          rcases hn with hn | hn
          · exact absurd hn.symm (okMessage_ne_noRows _)
          · exact absurd rfl (hT _ hn _)
        · rintro ⟨-, h⟩
          exact absurd h hi
      · rintro (h | h) <;> cases h

/-- C9 (as amended): for every catalog and every selected lesson, with example text `e`,
`handleLoadExample` assigns to the editor `e.trim()` when that ends with `;` and `e.trim()`
followed by one `;` otherwise, and changes nothing else; the editor then reports that text
with its line breaks normalized.  When `e` has no whitespace at either end and no carriage
return, the editor reports `e` itself if `e` ends with `;`, and `e` followed by one `;`
otherwise.  When no lesson is selected or none is found, the state is unchanged. -/
theorem handleLoadExample_spec {DB : Type} (catalog : List LessonGroup) (st : App DB)
    (found : Option Lesson) (h : findLesson catalog st.currentLessonId = found) :
    (∀ lesson, found = some lesson →
      handleLoadExample catalog st =
        { st with
          editor := normalizeNewlines (if endsWith (trim lesson.exampleText) [59]
            then trim lesson.exampleText else trim lesson.exampleText ++ [59]) } ∧
      (trim lesson.exampleText = lesson.exampleText → 13 ∉ lesson.exampleText →
        (handleLoadExample catalog st).editor =
          if endsWith lesson.exampleText [59] then lesson.exampleText
          else lesson.exampleText ++ [59])) ∧
    (found = none → handleLoadExample catalog st = st) := by
  subst h
  refine ⟨?_, ?_⟩
  · intro lesson hf
    have e1 : handleLoadExample catalog st =
        { st with
          editor := normalizeNewlines (if endsWith (trim lesson.exampleText) [59]
            then trim lesson.exampleText else trim lesson.exampleText ++ [59]) } := by
      simp only [handleLoadExample, hf, setEditorValue]
      cases endsWith (trim lesson.exampleText) [59] <;> simp
    refine ⟨e1, ?_⟩
    intro ht hcr
    rw [e1, ht]
    have hcr2 : 13 ∉ lesson.exampleText ++ [59] := by
      simp [hcr]
    cases endsWith lesson.exampleText [59]
    · simpa using normalizeNewlines_of_no_cr _ hcr2
    · simpa using normalizeNewlines_of_no_cr _ hcr
  · intro hf
    simp [handleLoadExample, hf]

/-- C9, witness: in `blankCatalog` the selected lesson is found and its example ` SELECT 1 `
is loaded as `SELECT 1;`, trimmed and terminated; in the catalog of the script the lesson
`select` is found and its example, which ends with `;`, is loaded as it is; with no lesson
selected the state is unchanged. -/
theorem handleLoadExample_spec_witness :
    (handleLoadExample blankCatalog { sampleState with currentLessonId := some [120] } =
        { sampleState with currentLessonId := some [120], editor := lit "SELECT 1;" }) ∧
      (handleLoadExample LESSONS
          { sampleState with currentLessonId := some (lit "select") }).editor =
        lit "SELECT id, name FROM employees;" ∧
      handleLoadExample LESSONS sampleState = sampleState :=
  ⟨((handleLoadExample_spec blankCatalog { sampleState with currentLessonId := some [120] }
      (some blankLesson) (by decide)).1 blankLesson rfl).1,
    ((handleLoadExample_spec LESSONS { sampleState with currentLessonId := some (lit "select") }
      (some { id := lit "select", title := lit "SELECT",
              description := lit "Retrieve columns from a table.",
              exampleText := lit "SELECT id, name FROM employees;" })
      (by decide)).1 _ rfl).2 (by decide) (by decide),
    (handleLoadExample_spec LESSONS sampleState none (by decide)).2 rfl⟩

/-- C9, counterexample: the example ` SELECT 1 ` of the selected lesson does not end with
`;`, yet the editor does not receive it followed by `;`: it receives `SELECT 1;`, without
the blanks. -/
theorem handleLoadExample_not_verbatim :
    findLesson blankCatalog (some [120]) = some blankLesson ∧
      blankLesson.exampleText = lit " SELECT 1 " ∧
      endsWith blankLesson.exampleText [59] = false ∧
      (handleLoadExample blankCatalog
        { sampleState with currentLessonId := some [120] }).editor = lit "SELECT 1;" ∧
      (handleLoadExample blankCatalog
        { sampleState with currentLessonId := some [120] }).editor ≠
          blankLesson.exampleText ++ [59] := by
  decide

/-- C10 (as amended): `loadFromUrl` leaves the state, and so the editor text, unchanged when
the `sql` parameter is absent, when it is malformed and when it decodes to the empty text.
The editor text changes only when the parameter decodes to a non-empty text; the editor then
reports the decoded text with its line breaks normalized (every CR LF and every other CR
replaced by LF), which is the decoded text itself when that has no carriage return, and is
never empty: a present value is never overwritten with the empty text. -/
theorem loadFromUrl_spec {DB : Type} (param : Option JSString) (st : App DB) :
    (param = none → loadFromUrl param st = st) ∧
    (∀ e, param = some e → isMalformedLocator e = true → loadFromUrl param st = st) ∧
    (∀ e, param = some e → base64Decode e = [] → loadFromUrl param st = st) ∧
    (∀ e, param = some e → base64Decode e ≠ [] →
      loadFromUrl param st = { st with editor := normalizeNewlines (base64Decode e) } ∧
      normalizeNewlines (base64Decode e) ≠ [] ∧
      (13 ∉ base64Decode e → (loadFromUrl param st).editor = base64Decode e)) ∧
    ((loadFromUrl param st).editor ≠ st.editor →
      ∃ e, param = some e ∧ base64Decode e ≠ [] ∧
        (loadFromUrl param st).editor = normalizeNewlines (base64Decode e)) ∧
    (st.editor ≠ [] → (loadFromUrl param st).editor ≠ []) := by
  have hempty : base64Decode [] = [] := by decide
  have hset : ∀ e, base64Decode e ≠ [] →
      loadFromUrl (some e) st = { st with editor := normalizeNewlines (base64Decode e) } := by
    intro e he
    have hne : e ≠ [] := by
      rintro rfl
      exact he hempty
    simp [loadFromUrl, setEditorValue, he, hne]
  have hkeep : ∀ e, base64Decode e = [] → loadFromUrl (some e) st = st := by
    intro e he
    simp [loadFromUrl, he]
  refine ⟨?_, ?_, ?_, ?_, ?_, ?_⟩
  · rintro rfl; rfl
  · rintro e rfl hm
    exact hkeep e (base64Decode_of_malformed e hm)
  · rintro e rfl he
    exact hkeep e he
  · rintro e rfl he
    refine ⟨hset e he, normalizeNewlines_ne_nil _ he, ?_⟩
    intro hcr
    rw [hset e he]
    exact normalizeNewlines_of_no_cr _ hcr
  · intro h
    cases param with
    | none => exact absurd rfl h
    | some e =>
      by_cases he : base64Decode e = []
      · rw [hkeep e he] at h
        exact absurd rfl h
      · exact ⟨e, rfl, he, by rw [hset e he]⟩
  · intro h
    cases param with
    | none => exact h
    | some e =>
      by_cases he : base64Decode e = []
      · rw [hkeep e he]
        exact h
      · rw [hset e he]
        exact normalizeNewlines_ne_nil _ he

/-- C10, witness: with the editor holding `old`, an address without the parameter and the
malformed locator `/w==` leave the state as it is, and the locator `U0VMRUNUIDE7` puts its
decoded text `SELECT 1;` into the editor. -/
theorem loadFromUrl_spec_witness :
    loadFromUrl none sampleState = sampleState ∧
      loadFromUrl (some (lit "/w==")) sampleState = sampleState ∧
      (loadFromUrl (some (lit "U0VMRUNUIDE7")) sampleState).editor = lit "SELECT 1;" :=
  ⟨(loadFromUrl_spec none sampleState).1 rfl,
    (loadFromUrl_spec (some (lit "/w==")) sampleState).2.1 (lit "/w==") rfl (by decide),
    ((loadFromUrl_spec (some (lit "U0VMRUNUIDE7")) sampleState).2.2.2.1 (lit "U0VMRUNUIDE7") rfl
      (by decide)).2.2 (by decide)⟩

/-- C10, counterexample: the locator `DQo=` decodes to the non-empty text CR LF, and the
editor, which held `old`, then reports the single LF, not the decoded text. -/
theorem loadFromUrl_not_verbatim :
    base64Decode (lit "DQo=") = [13, 10] ∧
      (loadFromUrl (some (lit "DQo=")) sampleState).editor = [10] ∧
      (loadFromUrl (some (lit "DQo=")) sampleState).editor ≠ base64Decode (lit "DQo=") := by
  decide

end SQLPlayground
